import Mathlib

/-!
# Murmuration simulation core (`src/main.cpp`)

A shallow embedding of the per-frame update of `main.cpp`: `limitSpeed`,
`updateLeadBirds`, `updateParticles` and `getAudioAmplitude`.

The C++ code computes with `float`.  The definitions below are written over an
arbitrary type `K` of numbers that carries the operations the code uses
(`+ - * /`, unary minus, `<`, decimal literals, the conversions from integers)
and over a parameter `sqrt : K → K`; no law of arithmetic is built in.  A
theorem stated for every such `K` therefore holds for the binary32 numbers with
their rounded operations as well as for the real numbers with exact
operations; where a theorem needs a law of the arithmetic, or a fact about the
numbers it is given, that is an explicit hypothesis.  The binary32 numbers are
the type `F32` of this file.  The concrete examples are evaluated in `F32`, or
over the real numbers with `Real.sqrt` at inputs on which the exact and the
rounded evaluation take the same branches.

Division by a zero length, which `glm::normalize` answers with infinities and
NaNs, is the one place where the model does not follow the numbers: `normalize`
returns `none` there, and `none` propagates to the result of the enclosing
update, as the NaN propagates to the velocity that is written back.
-/

namespace Murmer

/-! ## Constants (main.cpp, lines 17-26) -/

section Constants
variable {K : Type} [OfScientific K]

/-- The constant `MIN_LEAD_BIRDS`. -/
def MIN_LEAD_BIRDS : Nat := 1

/-- The constant `MAX_LEAD_BIRDS`. -/
def MAX_LEAD_BIRDS : Nat := 5

/-- The constant `MAX_SPEED = 0.01f`. -/
def MAX_SPEED : K := 0.01

/-- The constant `SEPARATION_RADIUS = 0.1f`. -/
def SEPARATION_RADIUS : K := 0.1

/-- The constant `ALIGNMENT_RADIUS = 0.2f`. -/
def ALIGNMENT_RADIUS : K := 0.2

/-- The constant `COHESION_RADIUS = 0.3f`. -/
def COHESION_RADIUS : K := 0.3

/-- The value of `std::numeric_limits<float>::max()`, that is `2^128 - 2^104`. -/
def FLT_MAX : K := 340282346638528859811704183484516925440.0

/-- The value of `RAND_MAX` of the C library (`2^31 - 1`). -/
def RAND_MAX : Nat := 2147483647

end Constants

/-! ## Vectors (`glm::vec3`) -/

/-- A `glm::vec3` with components in `K`. -/
@[ext]
structure Vec3 (K : Type) where
  x : K
  y : K
  z : K
deriving DecidableEq

namespace Vec3
variable {K : Type} [Add K] [Sub K] [Mul K] [Div K] [DecidableEq K] [OfScientific K]

/-- The vector `glm::vec3(0.0f)`. -/
def zero : Vec3 K := ⟨0.0, 0.0, 0.0⟩

/-- Componentwise sum, `a + b` of glm. -/
def add (a b : Vec3 K) : Vec3 K := ⟨a.x + b.x, a.y + b.y, a.z + b.z⟩

/-- Componentwise difference, `a - b` of glm. -/
def sub (a b : Vec3 K) : Vec3 K := ⟨a.x - b.x, a.y - b.y, a.z - b.z⟩

/-- Vector times scalar, `v * s` of glm. -/
def scale (v : Vec3 K) (s : K) : Vec3 K := ⟨v.x * s, v.y * s, v.z * s⟩

/-- Vector divided by scalar, `v / s` of glm. -/
def divs (v : Vec3 K) (s : K) : Vec3 K := ⟨v.x / s, v.y / s, v.z / s⟩

instance : Add (Vec3 K) := ⟨add⟩
instance : Sub (Vec3 K) := ⟨sub⟩

/-- The scalar product `glm::dot`. -/
def dot (a b : Vec3 K) : K := a.x * b.x + a.y * b.y + a.z * b.z

/-- The Euclidean norm `glm::length(v) = sqrt(dot(v, v))`. -/
def length (sqrt : K → K) (v : Vec3 K) : K := sqrt (dot v v)

/-- The distance `glm::distance(p0, p1) = length(p1 - p0)`. -/
def distance (sqrt : K → K) (p0 p1 : Vec3 K) : K := length sqrt (p1 - p0)

/-- The unit vector `glm::normalize(v) = v * inversesqrt(dot(v, v))`, with
`inversesqrt(d) = 1 / sqrt(d)`.  When the computed length is zero the quotient
does not exist (the C++ code gets infinities and NaNs): the result is `none`. -/
def normalize (sqrt : K → K) (v : Vec3 K) : Option (Vec3 K) :=
  if sqrt (dot v v) = 0.0 then none else some (v.scale (1.0 / sqrt (dot v v)))

end Vec3

open Vec3

/-! ## Data model (main.cpp, lines 28-44) -/

/-- The struct `Particle`. -/
structure Particle (K : Type) where
  position : Vec3 K
  velocity : Vec3 K
  size : K
  color : Vec3 K
deriving DecidableEq

/-- The struct `LeadBird`. -/
structure LeadBird (K : Type) where
  position : Vec3 K
  velocity : Vec3 K
  path : List (Vec3 K)
deriving DecidableEq

/-- The two global collections `leadBirds` and `particles`. -/
structure State (K : Type) where
  leadBirds : List (LeadBird K)
  particles : List (Particle K)
deriving DecidableEq

section Core
variable {K : Type} [Add K] [Sub K] [Mul K] [Div K] [Neg K] [LT K]
  [DecidableRel (LT.lt : K → K → Prop)] [DecidableEq K] [OfScientific K] [NatCast K]
  [IntCast K]

/-! ## limitSpeed (lines 221-226) -/

/-- The function `limitSpeed`: a velocity longer than `MAX_SPEED` is normalised
and scaled to `MAX_SPEED`, any other velocity is returned as it is. -/
def limitSpeed (sqrt : K → K) (velocity : Vec3 K) : Option (Vec3 K) :=
  if length sqrt velocity > MAX_SPEED then
    (normalize sqrt velocity).map (fun n => n.scale MAX_SPEED)
  else
    some velocity

/-! ## Wrap around screen edges (lines 233-237 and 332-336) -/

/-- The four consecutive `if` statements that both update functions apply to
`position`: below `-1` becomes `1`, then above `1` becomes `-1`, for `x` and
for `y`; `z` is not touched. -/
def wrapEdges (position : Vec3 K) : Vec3 K :=
  let x1 := if position.x < -1.0 then 1.0 else position.x
  let x2 := if x1 > 1.0 then -1.0 else x1
  let y1 := if position.y < -1.0 then 1.0 else position.y
  let y2 := if y1 > 1.0 then -1.0 else y1
  ⟨x2, y2, position.z⟩

/-! ## updateLeadBirds (lines 228-294) -/

/-- The six local accumulators of the neighbour scan in `updateLeadBirds`. -/
structure FlockAcc (K : Type) where
  separation : Vec3 K
  alignment : Vec3 K
  cohesion : Vec3 K
  separationCount : Nat
  alignmentCount : Nat
  cohesionCount : Nat

/-- The accumulators as initialised at lines 240-245. -/
def FlockAcc.init : FlockAcc K := ⟨Vec3.zero, Vec3.zero, Vec3.zero, 0, 0, 0⟩

/-- The body of the inner loop (lines 249-264) for one `otherBird` that is not
`bird` itself: three independent radius tests on the same distance. -/
def scanStep (sqrt : K → K) (bird : LeadBird K) (acc : FlockAcc K)
    (otherBird : LeadBird K) : FlockAcc K :=
  let distance := Vec3.distance sqrt bird.position otherBird.position
  let acc1 : FlockAcc K :=
    if distance < SEPARATION_RADIUS then
      { acc with separation := acc.separation + (bird.position - otherBird.position),
                 separationCount := acc.separationCount + 1 }
    else acc
  let acc2 : FlockAcc K :=
    if distance < ALIGNMENT_RADIUS then
      { acc1 with alignment := acc1.alignment + otherBird.velocity,
                  alignmentCount := acc1.alignmentCount + 1 }
    else acc1
  if distance < COHESION_RADIUS then
    { acc2 with cohesion := acc2.cohesion + otherBird.position,
                cohesionCount := acc2.cohesionCount + 1 }
  else acc2

/-- The inner loop (lines 247-266) over the other leads, in array order.
`others` is the array without the element whose address is `&bird`. -/
def scanOthers (sqrt : K → K) (bird : LeadBird K) (others : List (LeadBird K)) : FlockAcc K :=
  others.foldl (scanStep sqrt bird) FlockAcc.init

/-- Lines 268-273: the separation vector after the scan. -/
def separationForce (sqrt : K → K) (bird : LeadBird K) (acc : FlockAcc K) : Option (Vec3 K) :=
  if acc.separationCount > 0 then
    (normalize sqrt (acc.separation.divs (acc.separationCount : K))).bind
      (fun n => limitSpeed sqrt (n.scale MAX_SPEED - bird.velocity))
  else some acc.separation

/-- Lines 275-280: the alignment vector after the scan. -/
def alignmentForce (sqrt : K → K) (bird : LeadBird K) (acc : FlockAcc K) : Option (Vec3 K) :=
  if acc.alignmentCount > 0 then
    (normalize sqrt (acc.alignment.divs (acc.alignmentCount : K))).bind
      (fun n => limitSpeed sqrt (n.scale MAX_SPEED - bird.velocity))
  else some acc.alignment

/-- Lines 282-288: the cohesion vector after the scan. -/
def cohesionForce (sqrt : K → K) (bird : LeadBird K) (acc : FlockAcc K) : Option (Vec3 K) :=
  if acc.cohesionCount > 0 then
    (normalize sqrt (acc.cohesion.divs (acc.cohesionCount : K) - bird.position)).bind
      (fun n => limitSpeed sqrt (n.scale MAX_SPEED - bird.velocity))
  else some acc.cohesion

/-- Lines 231-237: the lead after `position += velocity` and the edge wrap. -/
def advance (bird : LeadBird K) : LeadBird K :=
  { bird with position := wrapEdges (bird.position + bird.velocity) }

/-- The body of the outer loop (lines 230-292) for one lead; `others` are the
other elements of `leadBirds` as the array holds them at that moment. -/
def updateBird (sqrt : K → K) (others : List (LeadBird K)) (bird0 : LeadBird K) :
    Option (LeadBird K) :=
  let bird := advance bird0
  let acc := scanOthers sqrt bird others
  (separationForce sqrt bird acc).bind fun separation =>
  (alignmentForce sqrt bird acc).bind fun alignment =>
  (cohesionForce sqrt bird acc).bind fun cohesion =>
  (limitSpeed sqrt
      (bird.velocity + (separation.scale 1.5 + alignment.scale 1.0 + cohesion.scale 1.0))).map
    fun velocity => { bird with velocity := velocity }

/-- The outer loop of `updateLeadBirds`, which rewrites the array in place:
`done` holds the leads already rewritten by this pass, the second list the
leads still to visit.  The lead being visited sees `done` and the untouched
rest. -/
def updateLeadBirdsLoop (sqrt : K → K) :
    List (LeadBird K) → List (LeadBird K) → Option (List (LeadBird K))
  | done, [] => some done
  | done, bird :: rest =>
    match updateBird sqrt (done ++ rest) bird with
    | none => none
    | some b => updateLeadBirdsLoop sqrt (done ++ [b]) rest

/-- The function `updateLeadBirds` on the global `leadBirds`. -/
def updateLeadBirds (sqrt : K → K) (leadBirds : List (LeadBird K)) : Option (List (LeadBird K)) :=
  updateLeadBirdsLoop sqrt [] leadBirds

/-! ## updateParticles (lines 296-342) -/

/-- One iteration of the nearest-lead scan (lines 306-310) on the pair
`(nearestBird, minDistance)`. -/
def nearestStep (sqrt : K → K) (particle : Particle K)
    (acc : Option (LeadBird K) × K) (bird : LeadBird K) : Option (LeadBird K) × K :=
  let distance := Vec3.distance sqrt particle.position bird.position
  if distance < acc.2 then (some bird, distance) else acc

/-- The nearest-lead scan (lines 302-311): `nearestBird` starts as `nullptr`
and `minDistance` as `FLT_MAX`. -/
def findNearest (sqrt : K → K) (particle : Particle K) (leadBirds : List (LeadBird K)) :
    Option (LeadBird K) × K :=
  leadBirds.foldl (nearestStep sqrt particle) (none, FLT_MAX)

/-- The expression `(float)rand() / RAND_MAX * 0.002f - 0.001f` for a value
`r` returned by `rand()`. -/
def noise (r : Nat) : K := (r : K) / (RAND_MAX : K) * 0.002 - 0.001

/-- The body of the particle loop (lines 301-336) for one particle.  `rand k`
is the value of the `k`-th call of `rand()` from now on and `k` counts the
calls made so far; the result carries the new count. -/
def updateParticle (sqrt : K → K) (leadBirds : List (LeadBird K)) (rand : Nat → Nat)
    (k : Nat) (particle : Particle K) : Option (Particle K × Nat) :=
  match (findNearest sqrt particle leadBirds).1 with
  | some nearestBird =>
    (normalize sqrt (nearestBird.position - particle.position)).bind fun direction =>
    let v1 := particle.velocity + direction.scale 0.001
    let v2 := v1 + ⟨noise (rand k), noise (rand (k + 1)), 0.0⟩
    (limitSpeed sqrt v2).map fun v3 =>
      ({ particle with velocity := v3, position := wrapEdges (particle.position + v3) }, k + 2)
  | none => some ({ particle with position := wrapEdges particle.position }, k)

/-- The particle loop of `updateParticles`, threading the count of `rand()` calls. -/
def updateParticlesLoop (sqrt : K → K) (leadBirds : List (LeadBird K)) (rand : Nat → Nat) :
    Nat → List (Particle K) → Option (List (Particle K))
  | _, [] => some []
  | k, particle :: rest =>
    match updateParticle sqrt leadBirds rand k particle with
    | none => none
    | some (p, k1) => (updateParticlesLoop sqrt leadBirds rand k1 rest).map (fun ps => p :: ps)

/-- The function `updateParticles`.  The amplitude read at line 297 is only
printed and takes no part in the update. -/
def updateParticles (sqrt : K → K) (leadBirds : List (LeadBird K)) (rand : Nat → Nat)
    (particles : List (Particle K)) : Option (List (Particle K)) :=
  updateParticlesLoop sqrt leadBirds rand 0 particles

/-- One pass of the main loop (lines 441-442): `updateLeadBirds` and then
`updateParticles`. -/
def tick (sqrt : K → K) (rand : Nat → Nat) (s : State K) : Option (State K) :=
  (updateLeadBirds sqrt s.leadBirds).bind fun leadBirds =>
  (updateParticles sqrt leadBirds rand s.particles).map fun particles =>
    { leadBirds := leadBirds, particles := particles }

/-! ## getAudioAmplitude (lines 385-400) -/

/-- The range of an `ALshort`, a signed 16-bit sample. -/
def isALshort (sample : Int) : Prop := -32768 ≤ sample ∧ sample ≤ 32767

instance (sample : Int) : Decidable (isALshort sample) :=
  inferInstanceAs (Decidable (_ ∧ _))

/-- The function `getAudioAmplitude` on the captured buffer `samples` (whose
length is `samplesAvailable`).  Each sample is an `ALshort`, given as the
integer it holds; `fabs` is `std::abs` on `float`. -/
def getAudioAmplitude (fabs : K → K) (samples : List Int) : K :=
  if samples.length > 0 then
    (samples.foldl (fun (sum : K) (sample : Int) => sum + fabs ((sample : K) / 32768.0)) 0.0) /
      (samples.length : K)
  else 0.0

end Core

/-! ## The claims' own words as definitions -/

section Claimed
variable {K : Type} [Add K] [Sub K] [Mul K] [Div K] [Neg K] [LT K]
  [DecidableRel (LT.lt : K → K → Prop)] [DecidableEq K] [OfScientific K] [NatCast K]
  [IntCast K]

/-- The other leads that pass the cohesion test of the scan for `bird`. -/
def cohesionNeighbours (sqrt : K → K) (bird : LeadBird K) (others : List (LeadBird K)) :
    List (LeadBird K) :=
  others.filter (fun o => decide (Vec3.distance sqrt bird.position o.position < COHESION_RADIUS))

/-- The sum of the positions of the leads of a list, in list order. -/
def positionSum (l : List (LeadBird K)) : Vec3 K :=
  l.foldl (fun sum o => sum + o.position) Vec3.zero

/-- The average of the positions of the leads of a list. -/
def averagePosition (l : List (LeadBird K)) : Vec3 K :=
  (positionSum l).divs (l.length : K)

/-- The cohesion vector as claim C10 words it: the average of the neighbours'
positions is subtracted from the lead's own position, the difference is
normalised to `MAX_SPEED`, the velocity is subtracted and the result is
speed-limited. -/
def cohesionClaimed (sqrt : K → K) (bird : LeadBird K) (others : List (LeadBird K)) :
    Option (Vec3 K) :=
  (normalize sqrt
      (bird.position - averagePosition (cohesionNeighbours sqrt bird others))).bind
    (fun n => limitSpeed sqrt (n.scale MAX_SPEED - bird.velocity))

/-- The lead as claim C7 words the outcome of a pass without neighbours: new
position `wrap(old position + old velocity)`, new velocity
`limitSpeed(old velocity)` (the velocity itself should `limitSpeed` have no
value). -/
def freeFlight (sqrt : K → K) (bird : LeadBird K) : LeadBird K :=
  { advance bird with velocity := (limitSpeed sqrt bird.velocity).getD bird.velocity }

/-- None of the three radius tests of the scan fires for a lead at `p` and
another lead at `q`, the distance and the comparisons taken as the scan
computes them. -/
def clear (sqrt : K → K) (p q : Vec3 K) : Prop :=
  ¬ Vec3.distance sqrt p q < SEPARATION_RADIUS ∧
  ¬ Vec3.distance sqrt p q < ALIGNMENT_RADIUS ∧
  ¬ Vec3.distance sqrt p q < COHESION_RADIUS

instance (sqrt : K → K) (p q : Vec3 K) : Decidable (clear sqrt p q) :=
  inferInstanceAs (Decidable (_ ∧ _ ∧ _))

/-- Two leads that do not meet during a pass, in whichever order they are
visited: for the advanced position of each, no radius test fires against the
old or the advanced position of the other. -/
def apart (sqrt : K → K) (a b : LeadBird K) : Prop :=
  clear sqrt (advance a).position b.position ∧
  clear sqrt (advance a).position (advance b).position ∧
  clear sqrt (advance b).position a.position ∧
  clear sqrt (advance b).position (advance a).position

instance (sqrt : K → K) (a b : LeadBird K) : Decidable (apart sqrt a b) :=
  inferInstanceAs (Decidable (_ ∧ _ ∧ _ ∧ _))

end Claimed

/-! ## Concrete inputs used by the examples below -/

section Inputs
variable {K : Type} [Neg K] [OfScientific K]

/-- A lead at the origin, at rest. -/
def twinBird : LeadBird K := ⟨Vec3.zero, Vec3.zero, []⟩

/-- A lead at `(0.5, 0, 0)`, at rest. -/
def farLead : LeadBird K := ⟨⟨0.5, 0.0, 0.0⟩, Vec3.zero, []⟩

/-- A particle at `x = FLT_MAX` with velocity `(1, 0, 0)`. -/
def farParticle : Particle K := ⟨⟨FLT_MAX, 0.0, 0.0⟩, ⟨1.0, 0.0, 0.0⟩, 5.0, ⟨1.0, 1.0, 1.0⟩⟩

/-- A particle at the origin, at rest, as `setupParticles` creates them. -/
def restParticle : Particle K := ⟨Vec3.zero, Vec3.zero, 5.0, ⟨1.0, 1.0, 1.0⟩⟩

/-- One lead at rest at the origin and one particle at the same point. -/
def coincidentState : State K := ⟨[twinBird], [restParticle]⟩

/-- A lead at `(1, 1, 0)`, at rest. -/
def cornerLead : LeadBird K := ⟨⟨1.0, 1.0, 0.0⟩, Vec3.zero, []⟩

/-- A particle at `(0.1, 0.1, 0)`, at rest. -/
def exampleParticle : Particle K := ⟨⟨0.1, 0.1, 0.0⟩, Vec3.zero, 5.0, ⟨1.0, 1.0, 1.0⟩⟩

/-- A lead at `(0.25, 0, 0)`, at rest. -/
def quarterLead : LeadBird K := ⟨⟨0.25, 0.0, 0.0⟩, Vec3.zero, []⟩

/-- A lead at `(0.305, 0, 0)` flying toward the origin with velocity
`(-0.01, 0, 0)`. -/
def incomingLead : LeadBird K := ⟨⟨0.305, 0.0, 0.0⟩, ⟨-0.01, 0.0, 0.0⟩, []⟩

/-- The lead `incomingLead` after one pass next to a lead at the origin, in
exact arithmetic. -/
def incomingLeadAfter : LeadBird K := ⟨⟨0.295, 0.0, 0.0⟩, ⟨-0.01, 0.0, 0.0⟩, []⟩

/-- A lead at the origin with velocity `(0.01, 0, 0)`. -/
def pulledLead : LeadBird K := ⟨Vec3.zero, ⟨0.01, 0.0, 0.0⟩, []⟩

/-- The vector `(2^70, 0, 0)`. -/
def hugeVector : Vec3 K := ⟨1180591620717411303424.0, 0.0, 0.0⟩

/-- The vector `(-2, -3, -6)`, of length `7`. -/
def steepVector : Vec3 K := ⟨-2.0, -3.0, -6.0⟩

/-- The vector `(3, 4, 0)`. -/
def plainVector : Vec3 K := ⟨3.0, 4.0, 0.0⟩

/-- A capture buffer of 512 samples of value `-32768` followed by 512 samples
of value `1`. -/
def fadingBuffer : List Int := List.replicate 512 (-32768) ++ List.replicate 512 1

end Inputs

/-! ## Binary32 arithmetic

The IEEE 754 binary32 numbers with round-to-nearest-even, every operation
rounded by itself, as the compiled program computes with `float`.  The two
zeros are one number and the NaNs are one number: the program reads neither
the sign of a zero (its divisors are counts, `RAND_MAX`, `32768` and square
roots) nor the payload of a NaN. -/

/-- A binary32 number: NaN, an infinity, or the finite number `n * 2^(-149)`
(every operation below returns only `n` of at most 24 significant bits and of
magnitude below `2^277`). -/
inductive F32 where
  | nan
  | inf (negative : Bool)
  | fin (n : Int)
deriving DecidableEq

namespace F32

/-- The number of binary digits of `n`, by halving (at most `fuel` digits). -/
def bitLengthLoop : Nat → Nat → Nat
  | 0, _ => 0
  | fuel + 1, n => if n = 0 then 0 else bitLengthLoop fuel (n / 2) + 1

/-- The number of binary digits of `n` (for `n < 2^1200`). -/
def bitLength (n : Nat) : Nat := bitLengthLoop 1200 n

/-- The positive quotient `p / q`, counted in units of `2^(-149)`, rounded to
the nearest number of 24 significant bits that is a whole number of units,
ties to the even significand. -/
def roundUnits (p q : Nat) : Nat :=
  let f := p / q
  let s := bitLength f - 24
  let d := q * 2 ^ s
  let m := p / d
  let r := p % d
  let m1 := if 2 * r < d then m else if d < 2 * r then m + 1 else if m % 2 = 0 then m else m + 1
  m1 * 2 ^ s

/-- The binary32 number nearest to `± p / q` units; an infinity when the
rounded magnitude reaches `2^128`. -/
def ofUnits (negative : Bool) (p q : Nat) : F32 :=
  let u := roundUnits p q
  if 2 ^ 277 ≤ u then inf negative else fin (if negative then -(u : Int) else (u : Int))

/-- Unary minus. -/
def neg : F32 → F32
  | nan => nan
  | inf s => inf (!s)
  | fin n => fin (-n)

/-- Addition, rounded. -/
def add : F32 → F32 → F32
  | nan, _ => nan
  | _, nan => nan
  | inf s, inf t => if s = t then inf s else nan
  | inf s, fin _ => inf s
  | fin _, inf t => inf t
  | fin a, fin b => ofUnits (decide (a + b < 0)) (a + b).natAbs 1

/-- Subtraction, rounded. -/
def sub (x y : F32) : F32 := add x (neg y)

/-- Multiplication, rounded. -/
def mul : F32 → F32 → F32
  | nan, _ => nan
  | _, nan => nan
  | inf s, inf t => inf (xor s t)
  | inf s, fin b => if b = 0 then nan else inf (xor s (decide (b < 0)))
  | fin a, inf t => if a = 0 then nan else inf (xor (decide (a < 0)) t)
  | fin a, fin b =>
    ofUnits (xor (decide (a < 0)) (decide (b < 0))) (a.natAbs * b.natAbs) (2 ^ 149)

/-- Division, rounded; a finite non-zero number divided by zero is an infinity
(the zero counts as positive), zero by zero is NaN. -/
def div : F32 → F32 → F32
  | nan, _ => nan
  | _, nan => nan
  | inf _, inf _ => nan
  | inf s, fin b => inf (xor s (decide (b < 0)))
  | fin _, inf _ => fin 0
  | fin a, fin b =>
    if b = 0 then (if a = 0 then nan else inf (decide (a < 0)))
    else ofUnits (xor (decide (a < 0)) (decide (b < 0))) (a.natAbs * 2 ^ 149) b.natAbs

/-- The comparison `<`; false whenever a NaN is involved. -/
def lt : F32 → F32 → Prop
  | nan, _ => False
  | _, nan => False
  | inf s, inf t => s = true ∧ t = false
  | inf s, fin _ => s = true
  | fin _, inf t => t = false
  | fin a, fin b => a < b

instance : LT F32 := ⟨lt⟩

instance : DecidableRel (LT.lt : F32 → F32 → Prop) := fun x y =>
  match x, y with
  | nan, nan => isFalse (fun h => h)
  | nan, inf _ => isFalse (fun h => h)
  | nan, fin _ => isFalse (fun h => h)
  | inf _, nan => isFalse (fun h => h)
  | fin _, nan => isFalse (fun h => h)
  | inf s, inf t => inferInstanceAs (Decidable (s = true ∧ t = false))
  | inf s, fin _ => inferInstanceAs (Decidable (s = true))
  | fin _, inf t => inferInstanceAs (Decidable (t = false))
  | fin a, fin b => inferInstanceAs (Decidable (a < b))

/-- Newton's iteration for the integer square root, from a start `x` that is
not below it. -/
def isqrtLoop : Nat → Nat → Nat → Nat
  | 0, _, x => x
  | fuel + 1, n, x =>
    let y := (x + n / x) / 2
    if y < x then isqrtLoop fuel n y else x

/-- The integer square root: the largest `r` with `r * r ≤ n`. -/
def isqrt (n : Nat) : Nat :=
  if n = 0 then 0 else isqrtLoop 1200 n (2 ^ (bitLength n / 2 + 1))

/-- The square root of `N` units squared, rounded like `roundUnits`. -/
def sqrtUnits (N : Nat) : Nat :=
  let f := isqrt N
  let s := bitLength f - 24
  let m := isqrt (N / 4 ^ s)
  let h := (2 * m + 1) ^ 2 * 4 ^ s
  let m1 := if 4 * N < h then m else if h < 4 * N then m + 1 else if m % 2 = 0 then m else m + 1
  m1 * 2 ^ s

/-- The square root, rounded (`sqrtf`). -/
def sqrt : F32 → F32
  | nan => nan
  | inf s => if s then nan else inf false
  | fin n => if n < 0 then nan else fin (sqrtUnits (n.natAbs * 2 ^ 149))

/-- The absolute value (`std::abs`). -/
def abs : F32 → F32
  | nan => nan
  | inf _ => inf false
  | fin n => fin (n.natAbs : Int)

instance : Add F32 := ⟨add⟩
instance : Sub F32 := ⟨sub⟩
instance : Mul F32 := ⟨mul⟩
instance : Div F32 := ⟨div⟩
instance : Neg F32 := ⟨neg⟩

/-- The conversion of a natural number (`int` to `float`), rounded. -/
instance : NatCast F32 := ⟨fun n => ofUnits false (n * 2 ^ 149) 1⟩

/-- The conversion of an integer (`int` to `float`), rounded. -/
instance : IntCast F32 := ⟨fun i => ofUnits (decide (i < 0)) (i.natAbs * 2 ^ 149) 1⟩

/-- The decimal literal `m * 10^(-e)` or `m * 10^e`, rounded. -/
instance : OfScientific F32 :=
  ⟨fun m s e =>
    if s then ofUnits false (m * 2 ^ 149) (10 ^ e) else ofUnits false (m * 10 ^ e * 2 ^ 149) 1⟩

end F32

/-! ## Lemmas that hold in every arithmetic -/

section Arithmetic
set_option linter.unusedSectionVars false
variable {K : Type} [Add K] [Sub K] [Mul K] [Div K] [Neg K] [LT K]
  [DecidableRel (LT.lt : K → K → Prop)] [DecidableEq K] [OfScientific K] [NatCast K]
  [IntCast K]

theorem limitSpeed_of_pos (sqrt : K → K) (hpos : ∀ x : K, MAX_SPEED < x → ¬ x = 0.0)
    (v : Vec3 K) :
    limitSpeed sqrt v =
      some (if MAX_SPEED < Vec3.length sqrt v
        then (v.scale (1.0 / Vec3.length sqrt v)).scale MAX_SPEED else v) := by
  unfold limitSpeed
  by_cases hlt : MAX_SPEED < Vec3.length sqrt v
  · have hne : ¬ sqrt (Vec3.dot v v) = 0.0 := hpos _ hlt
    rw [if_pos hlt, if_pos hlt, Vec3.normalize, if_neg hne]
    rfl
  · rw [if_neg hlt, if_neg hlt]

theorem scanStep_clear (sqrt : K → K) (bird o : LeadBird K) (acc : FlockAcc K)
    (h : clear sqrt bird.position o.position) : scanStep sqrt bird acc o = acc := by
  simp only [scanStep, h.1, h.2.1, h.2.2, if_false]

theorem foldl_scanStep_clear (sqrt : K → K) (bird : LeadBird K) (others : List (LeadBird K))
    (acc : FlockAcc K) (h : ∀ o ∈ others, clear sqrt bird.position o.position) :
    others.foldl (scanStep sqrt bird) acc = acc := by
  induction others generalizing acc with
  | nil => rfl
  | cons o rest ih =>
    rw [List.foldl_cons, scanStep_clear sqrt bird o acc (h o (List.mem_cons_self o rest))]
    exact ih acc (fun o' ho' => h o' (List.mem_cons_of_mem o ho'))

theorem updateBird_clear (sqrt : K → K) (bird : LeadBird K) (others : List (LeadBird K))
    (hzero : bird.velocity +
      ((Vec3.zero : Vec3 K).scale 1.5 + (Vec3.zero : Vec3 K).scale 1.0 +
        (Vec3.zero : Vec3 K).scale 1.0) = bird.velocity)
    (h : ∀ o ∈ others, clear sqrt (advance bird).position o.position) :
    updateBird sqrt others bird =
      (limitSpeed sqrt bird.velocity).map
        (fun v => ⟨wrapEdges (bird.position + bird.velocity), v, bird.path⟩) := by
  have hscan : scanOthers sqrt (advance bird) others = FlockAcc.init :=
    foldl_scanStep_clear sqrt (advance bird) others FlockAcc.init h
  have hvel : (advance bird).velocity +
      ((Vec3.zero : Vec3 K).scale 1.5 + (Vec3.zero : Vec3 K).scale 1.0 +
        (Vec3.zero : Vec3 K).scale 1.0) = bird.velocity := hzero
  simp only [updateBird, hscan, separationForce, alignmentForce, cohesionForce, FlockAcc.init,
    lt_irrefl, gt_iff_lt, if_false, Option.some_bind, hvel]
  rfl

theorem updateLeadBirdsLoop_take (sqrt : K → K) (todo done r : List (LeadBird K))
    (h : updateLeadBirdsLoop sqrt done todo = some r) :
    r.take done.length = done ∧ r.length = done.length + todo.length := by
  induction todo generalizing done with
  | nil =>
    simp only [updateLeadBirdsLoop, Option.some.injEq] at h
    subst h
    simp
  | cons b rest ih =>
    unfold updateLeadBirdsLoop at h
    cases hb : updateBird sqrt (done ++ rest) b with
    | none => rw [hb] at h; cases h
    | some b' =>
      rw [hb] at h
      obtain ⟨h1, h2⟩ := ih (done ++ [b']) h
      constructor
      · have := congrArg (List.take done.length) h1
        rw [List.take_take] at this
        simpa using this
      · simp only [List.length_append, List.length_cons, List.length_nil] at h2 ⊢
        omega

theorem updateLeadBirdsLoop_split (sqrt : K → K) (pre todo done r : List (LeadBird K))
    (h : updateLeadBirdsLoop sqrt done (pre ++ todo) = some r) :
    updateLeadBirdsLoop sqrt (r.take (done.length + pre.length)) todo = some r := by
  induction pre generalizing done with
  | nil =>
    obtain ⟨h1, _⟩ := updateLeadBirdsLoop_take sqrt _ _ _ h
    simp only [List.length_nil, Nat.add_zero, List.nil_append] at h ⊢
    rw [h1]
    exact h
  | cons b pre ih =>
    rw [List.cons_append] at h
    unfold updateLeadBirdsLoop at h
    cases hb : updateBird sqrt (done ++ (pre ++ todo)) b with
    | none => rw [hb] at h; cases h
    | some b' =>
      rw [hb] at h
      have := ih (done ++ [b']) h
      simp only [List.length_append, List.length_cons, List.length_nil] at this ⊢
      rw [show done.length + (pre.length + 1) = done.length + (0 + 1) + pre.length by omega]
      exact this

theorem updateLeadBirdsLoop_all (sqrt : K → K) (P : LeadBird K → Prop)
    (hP : ∀ others bird b, updateBird sqrt others bird = some b → P b)
    (todo done r : List (LeadBird K)) (h : updateLeadBirdsLoop sqrt done todo = some r)
    (hdone : ∀ b ∈ done, P b) : ∀ b ∈ r, P b := by
  induction todo generalizing done with
  | nil =>
    simp only [updateLeadBirdsLoop, Option.some.injEq] at h
    subst h
    exact hdone
  | cons bird rest ih =>
    unfold updateLeadBirdsLoop at h
    cases hb : updateBird sqrt (done ++ rest) bird with
    | none => rw [hb] at h; cases h
    | some b' =>
      rw [hb] at h
      refine ih (done ++ [b']) h ?_
      intro b hmem
      rcases List.mem_append.mp hmem with hd | hn
      · exact hdone b hd
      · rw [List.mem_singleton.mp hn]
        exact hP _ _ _ hb

theorem updateParticlesLoop_all (sqrt : K → K) (leadBirds : List (LeadBird K))
    (rand : Nat → Nat) (P : Particle K → Prop) (particles : List (Particle K))
    (hP : ∀ p ∈ particles, ∀ k q k1,
      updateParticle sqrt leadBirds rand k p = some (q, k1) → P q)
    (k : Nat) (r : List (Particle K))
    (h : updateParticlesLoop sqrt leadBirds rand k particles = some r) :
    ∀ q ∈ r, P q := by
  induction particles generalizing k r with
  | nil =>
    simp only [updateParticlesLoop, Option.some.injEq] at h
    subst h
    intro q hq
    cases hq
  | cons p rest ih =>
    unfold updateParticlesLoop at h
    cases hp : updateParticle sqrt leadBirds rand k p with
    | none => rw [hp] at h; cases h
    | some pk =>
      obtain ⟨p1, k1⟩ := pk
      rw [hp] at h
      simp only [Option.map_eq_some'] at h
      obtain ⟨ps, hps, hr⟩ := h
      subst hr
      intro q hq
      rcases List.mem_cons.mp hq with hq1 | hq2
      · rw [hq1]
        exact hP p (List.mem_cons_self p rest) k p1 k1 hp
      · exact ih (fun p' hp' => hP p' (List.mem_cons_of_mem p hp')) k1 ps hps q hq2

theorem tick_eq_some (sqrt : K → K) (rand : Nat → Nat) (s s' : State K)
    (h : tick sqrt rand s = some s') :
    updateLeadBirds sqrt s.leadBirds = some s'.leadBirds ∧
      updateParticles sqrt s'.leadBirds rand s.particles = some s'.particles := by
  simp only [tick, Option.bind_eq_some, Option.map_eq_some'] at h
  obtain ⟨lb, hlb, ps, hps, hs⟩ := h
  subst hs
  exact ⟨hlb, hps⟩

end Arithmetic

/-! ## The nearest-lead scan, the cohesion accumulators -/

section Scans
set_option linter.unusedSectionVars false
variable {K : Type} [Add K] [Sub K] [Mul K] [Div K] [Neg K] [LT K]
  [DecidableRel (LT.lt : K → K → Prop)] [DecidableEq K] [OfScientific K] [NatCast K]
  [IntCast K]

theorem foldl_nearestStep (sqrt : K → K)
    (hirrefl : ∀ a : K, ¬ a < a) (htrans : ∀ a b c : K, a < b → b < c → a < c)
    (particle : Particle K) (leadBirds : List (LeadBird K))
    (acc : Option (LeadBird K) × K) :
    (leadBirds.foldl (nearestStep sqrt particle) acc = acc ∧
        ∀ b ∈ leadBirds, ¬ Vec3.distance sqrt particle.position b.position < acc.2) ∨
      ∃ nb ∈ leadBirds,
        leadBirds.foldl (nearestStep sqrt particle) acc =
          (some nb, Vec3.distance sqrt particle.position nb.position) ∧
        Vec3.distance sqrt particle.position nb.position < acc.2 ∧
        ∀ b ∈ leadBirds, ¬ Vec3.distance sqrt particle.position b.position <
          Vec3.distance sqrt particle.position nb.position := by
  induction leadBirds generalizing acc with
  | nil => exact Or.inl ⟨rfl, fun b hb => (by cases hb)⟩
  | cons bird rest ih =>
    rw [List.foldl_cons]
    by_cases hlt : Vec3.distance sqrt particle.position bird.position < acc.2
    · have hstep : nearestStep sqrt particle acc bird =
          (some bird, Vec3.distance sqrt particle.position bird.position) := by
        simp only [nearestStep, if_pos hlt]
      rw [hstep]
      right
      rcases ih (some bird, Vec3.distance sqrt particle.position bird.position) with
        ⟨heq, hall⟩ | ⟨nb, hnb, heq, hnlt, hmin⟩
      · refine ⟨bird, List.mem_cons_self bird rest, heq, hlt, ?_⟩
        intro b hb
        rcases List.mem_cons.mp hb with h1 | h2
        · rw [h1]
          exact hirrefl _
        · exact hall b h2
      · refine ⟨nb, List.mem_cons_of_mem bird hnb, heq, htrans _ _ _ hnlt hlt, ?_⟩
        intro b hb
        rcases List.mem_cons.mp hb with h1 | h2
        · rw [h1]
          intro hb'
          exact hirrefl _ (htrans _ _ _ hnlt hb')
        · exact hmin b h2
    · have hstep : nearestStep sqrt particle acc bird = acc := by
        simp only [nearestStep, if_neg hlt]
      rw [hstep]
      rcases ih acc with ⟨heq, hall⟩ | ⟨nb, hnb, heq, hnlt, hmin⟩
      · left
        refine ⟨heq, ?_⟩
        intro b hb
        rcases List.mem_cons.mp hb with h1 | h2
        · rw [h1]
          exact hlt
        · exact hall b h2
      · right
        refine ⟨nb, List.mem_cons_of_mem bird hnb, heq, hnlt, ?_⟩
        intro b hb
        rcases List.mem_cons.mp hb with h1 | h2
        · rw [h1]
          intro hb'
          exact hlt (htrans _ _ _ hb' hnlt)
        · exact hmin b h2


theorem scanStep_cohesion (sqrt : K → K) (bird o : LeadBird K) (acc : FlockAcc K) :
    (scanStep sqrt bird acc o).cohesion =
        (if Vec3.distance sqrt bird.position o.position < COHESION_RADIUS
          then acc.cohesion + o.position else acc.cohesion) ∧
    (scanStep sqrt bird acc o).cohesionCount =
        (if Vec3.distance sqrt bird.position o.position < COHESION_RADIUS
          then acc.cohesionCount + 1 else acc.cohesionCount) := by
  simp only [scanStep]
  constructor <;> split_ifs <;> rfl

theorem foldl_scanStep_cohesion (sqrt : K → K) (bird : LeadBird K)
    (others : List (LeadBird K)) (acc : FlockAcc K) :
    (others.foldl (scanStep sqrt bird) acc).cohesion =
        (cohesionNeighbours sqrt bird others).foldl (fun sum o => sum + o.position)
          acc.cohesion ∧
    (others.foldl (scanStep sqrt bird) acc).cohesionCount =
        acc.cohesionCount + (cohesionNeighbours sqrt bird others).length := by
  induction others generalizing acc with
  | nil => exact ⟨rfl, rfl⟩
  | cons o rest ih =>
    obtain ⟨h1, h2⟩ := ih (scanStep sqrt bird acc o)
    obtain ⟨s1, s2⟩ := scanStep_cohesion sqrt bird o acc
    rw [List.foldl_cons, h1, h2, s1, s2]
    unfold cohesionNeighbours
    by_cases hd : Vec3.distance sqrt bird.position o.position < COHESION_RADIUS
    · rw [List.filter_cons_of_pos (by simpa using hd), if_pos hd, if_pos hd]
      constructor
      · rfl
      · rw [List.length_cons]
        omega
    · rw [List.filter_cons_of_neg (by simpa using hd), if_neg hd, if_neg hd]
      exact ⟨rfl, rfl⟩

theorem scanOthers_cohesion (sqrt : K → K) (bird : LeadBird K) (others : List (LeadBird K)) :
    (scanOthers sqrt bird others).cohesion =
        positionSum (cohesionNeighbours sqrt bird others) ∧
    (scanOthers sqrt bird others).cohesionCount =
        (cohesionNeighbours sqrt bird others).length := by
  obtain ⟨h1, h2⟩ := foldl_scanStep_cohesion sqrt bird others FlockAcc.init
  refine ⟨h1, ?_⟩
  unfold scanOthers
  rw [h2]
  simp [FlockAcc.init]

theorem updateBird_freeFlight (sqrt : K → K)
    (hpos : ∀ x : K, MAX_SPEED < x → ¬ x = 0.0)
    (bird : LeadBird K) (others : List (LeadBird K))
    (hzero : bird.velocity +
      ((Vec3.zero : Vec3 K).scale 1.5 + (Vec3.zero : Vec3 K).scale 1.0 +
        (Vec3.zero : Vec3 K).scale 1.0) = bird.velocity)
    (h : ∀ o ∈ others, clear sqrt (advance bird).position o.position) :
    updateBird sqrt others bird = some (freeFlight sqrt bird) := by
  rw [updateBird_clear sqrt bird others hzero h, freeFlight, limitSpeed_of_pos sqrt hpos]
  rfl

theorem apart_symm (sqrt : K → K) (a b : LeadBird K) (h : apart sqrt a b) : apart sqrt b a :=
  ⟨h.2.2.1, h.2.2.2, h.1, h.2.1⟩

theorem updateLeadBirdsLoop_apart (sqrt : K → K)
    (hpos : ∀ x : K, MAX_SPEED < x → ¬ x = 0.0)
    (todo done0 : List (LeadBird K))
    (hzero : ∀ b ∈ todo, b.velocity +
      ((Vec3.zero : Vec3 K).scale 1.5 + (Vec3.zero : Vec3 K).scale 1.0 +
        (Vec3.zero : Vec3 K).scale 1.0) = b.velocity)
    (hp : todo.Pairwise (apart sqrt))
    (hd : ∀ d ∈ done0, ∀ b ∈ todo, apart sqrt d b) :
    updateLeadBirdsLoop sqrt (done0.map (freeFlight sqrt)) todo =
      some (done0.map (freeFlight sqrt) ++ todo.map (freeFlight sqrt)) := by
  induction todo generalizing done0 with
  | nil => simp [updateLeadBirdsLoop]
  | cons bird rest ih =>
    rw [List.pairwise_cons] at hp
    have hb : updateBird sqrt (done0.map (freeFlight sqrt) ++ rest) bird =
        some (freeFlight sqrt bird) := by
      apply updateBird_freeFlight sqrt hpos _ _ (hzero bird (List.mem_cons_self bird rest))
      intro o ho
      rcases List.mem_append.mp ho with h1 | h2
      · obtain ⟨d, hdm, hdo⟩ := List.mem_map.mp h1
        rw [← hdo]
        exact (hd d hdm bird (List.mem_cons_self bird rest)).2.2.2
      · exact (hp.1 o h2).1
    unfold updateLeadBirdsLoop
    rw [hb]
    have hmap : done0.map (freeFlight sqrt) ++ [freeFlight sqrt bird] =
        (done0 ++ [bird]).map (freeFlight sqrt) := by simp
    simp only [hmap]
    rw [ih (done0 ++ [bird]) (fun b hb => hzero b (List.mem_cons_of_mem bird hb)) hp.2]
    · simp
    · intro d hdm b hbm
      rcases List.mem_append.mp hdm with h1 | h2
      · exact hd d h1 b (List.mem_cons_of_mem bird hbm)
      · rw [List.mem_singleton.mp h2]
        exact hp.1 b hbm

end Scans
/-! ## Exact arithmetic: the real numbers with `Real.sqrt` -/

section Exact

theorem real_add_zero (x : ℝ) : x + (0.0 * 1.5 + 0.0 * 1.0 + 0.0 * 1.0) = x := by
  norm_num

theorem real_pos_of_fast (x : ℝ) (h : MAX_SPEED < x) : ¬ x = 0.0 := by
  have : (0 : ℝ) < MAX_SPEED := by norm_num [MAX_SPEED]
  intro hx
  rw [hx] at h
  norm_num at h
  linarith

theorem Vec3.zero_eq : (Vec3.zero : Vec3 ℝ) = ⟨0, 0, 0⟩ := by
  ext <;> norm_num [Vec3.zero]

theorem Vec3.add_def (a b : Vec3 ℝ) : a + b = ⟨a.x + b.x, a.y + b.y, a.z + b.z⟩ := rfl
theorem Vec3.sub_def (a b : Vec3 ℝ) : a - b = ⟨a.x - b.x, a.y - b.y, a.z - b.z⟩ := rfl

theorem real_add_zero_vec (v : Vec3 ℝ) :
    v + ((Vec3.zero : Vec3 ℝ).scale 1.5 + (Vec3.zero : Vec3 ℝ).scale 1.0 +
      (Vec3.zero : Vec3 ℝ).scale 1.0) = v := by
  ext
  · exact real_add_zero v.x
  · exact real_add_zero v.y
  · exact real_add_zero v.z

theorem Vec3.normalize_zero : Vec3.normalize Real.sqrt (Vec3.zero : Vec3 ℝ) = none := by
  norm_num [Vec3.normalize, Vec3.zero, Vec3.dot]

theorem Vec3.length_axis (a : ℝ) : Vec3.length Real.sqrt ⟨a, 0, 0⟩ = |a| := by
  simp only [Vec3.length, Vec3.dot, mul_zero, add_zero]
  exact Real.sqrt_mul_self_eq_abs a

theorem distance_axis (a b : ℝ) :
    Vec3.distance Real.sqrt (⟨a, 0, 0⟩ : Vec3 ℝ) ⟨b, 0, 0⟩ = |b - a| := by
  have h : (⟨b, 0, 0⟩ : Vec3 ℝ) - ⟨a, 0, 0⟩ = ⟨b - a, 0, 0⟩ := by
    simp [Vec3.sub_def]
  rw [Vec3.distance, h, Vec3.length_axis]

theorem normalize_axis (a : ℝ) (ha : a ≠ 0) :
    Vec3.normalize Real.sqrt ⟨a, 0, 0⟩ = some ⟨a * (1 / |a|), 0, 0⟩ := by
  have hlen : Real.sqrt (Vec3.dot (⟨a, 0, 0⟩ : Vec3 ℝ) ⟨a, 0, 0⟩) = |a| := Vec3.length_axis a
  unfold Vec3.normalize
  rw [hlen, if_neg (by norm_num; exact ha)]
  norm_num [Vec3.scale]

theorem normalize_axis_pos (a : ℝ) (ha : 0 < a) :
    Vec3.normalize Real.sqrt ⟨a, 0, 0⟩ = some ⟨1, 0, 0⟩ := by
  rw [normalize_axis a (ne_of_gt ha), abs_of_pos ha]
  congr 2
  field_simp

theorem normalize_axis_neg (a : ℝ) (ha : a < 0) :
    Vec3.normalize Real.sqrt ⟨a, 0, 0⟩ = some ⟨-1, 0, 0⟩ := by
  rw [normalize_axis a (ne_of_lt ha), abs_of_neg ha]
  congr 2
  rw [mul_one_div, div_neg, div_self (ne_of_lt ha)]

theorem limitSpeed_of_dot_le (v : Vec3 ℝ) (h : Vec3.dot v v ≤ (1 / 100) ^ 2) :
    limitSpeed Real.sqrt v = some v := by
  unfold limitSpeed
  rw [if_neg]
  rw [gt_iff_lt, not_lt]
  have hM : (MAX_SPEED : ℝ) = 1 / 100 := by norm_num [MAX_SPEED]
  rw [hM]
  exact (Real.sqrt_le_left (by norm_num)).mpr h

theorem limitSpeed_zero : limitSpeed Real.sqrt (Vec3.zero : Vec3 ℝ) = some Vec3.zero := by
  apply limitSpeed_of_dot_le
  norm_num [Vec3.dot, Vec3.zero]

theorem limitSpeed_axis (a : ℝ) (ha : |a| ≤ 1 / 100) :
    limitSpeed Real.sqrt ⟨a, 0, 0⟩ = some ⟨a, 0, 0⟩ := by
  apply limitSpeed_of_dot_le
  have h := abs_le.mp ha
  simp only [Vec3.dot, mul_zero, add_zero]
  nlinarith [h.1, h.2]

theorem wrapEdges_range (p : Vec3 ℝ) :
    -1 ≤ (wrapEdges p).x ∧ (wrapEdges p).x ≤ 1 ∧ -1 ≤ (wrapEdges p).y ∧ (wrapEdges p).y ≤ 1 := by
  simp only [wrapEdges]
  refine ⟨?_, ?_, ?_, ?_⟩ <;> split_ifs <;> norm_num at * <;> linarith

theorem advance_twinBird : advance (twinBird : LeadBird ℝ) = twinBird := by
  norm_num [advance, twinBird, wrapEdges, Vec3.zero, Vec3.add_def]

theorem updateLeadBirds_twinBird :
    updateLeadBirds Real.sqrt [(twinBird : LeadBird ℝ)] = some [twinBird] := by
  have hb := updateBird_clear Real.sqrt (twinBird : LeadBird ℝ) []
    (real_add_zero_vec _) (fun o ho => by cases ho)
  have hpos : wrapEdges ((twinBird : LeadBird ℝ).position + (twinBird : LeadBird ℝ).velocity)
      = Vec3.zero := congrArg LeadBird.position advance_twinBird
  rw [show (twinBird : LeadBird ℝ).velocity = Vec3.zero from rfl, limitSpeed_zero] at hb
  simp only [updateLeadBirds, updateLeadBirdsLoop, List.nil_append, hb, Option.map_some']
  rw [show (twinBird : LeadBird ℝ).velocity = Vec3.zero from rfl] at hpos
  rw [hpos]
  rfl

theorem twinBird_position : (twinBird : LeadBird ℝ).position = ⟨0, 0, 0⟩ := Vec3.zero_eq

theorem distance_axis_origin (a : ℝ) :
    Vec3.distance Real.sqrt (⟨a, 0, 0⟩ : Vec3 ℝ) (twinBird : LeadBird ℝ).position = |a| := by
  rw [twinBird_position, distance_axis, zero_sub, abs_neg]

theorem FLT_MAX_pos : (1 : ℝ) < FLT_MAX := by
  norm_num [FLT_MAX]

theorem farParticle_position :
    (farParticle : Particle ℝ).position = ⟨FLT_MAX, 0, 0⟩ := by
  ext <;> norm_num [farParticle]

theorem findNearest_farParticle :
    (findNearest Real.sqrt (farParticle : Particle ℝ) [twinBird]).1 = none := by
  have hd := distance_axis_origin FLT_MAX
  rw [abs_of_pos (lt_trans one_pos FLT_MAX_pos)] at hd
  simp only [findNearest, List.foldl_cons, List.foldl_nil, nearestStep]
  rw [farParticle_position, hd, if_neg (lt_irrefl _)]

theorem restParticle_position : (restParticle : Particle ℝ).position = ⟨0, 0, 0⟩ :=
  Vec3.zero_eq

theorem findNearest_restParticle :
    (findNearest Real.sqrt (restParticle : Particle ℝ) [twinBird]).1 = some twinBird := by
  have hd := distance_axis_origin 0
  rw [abs_zero] at hd
  simp only [findNearest, List.foldl_cons, List.foldl_nil, nearestStep]
  rw [restParticle_position, hd, if_pos (lt_trans one_pos FLT_MAX_pos)]

theorem normalize_twin_rest :
    Vec3.normalize Real.sqrt
      ((twinBird : LeadBird ℝ).position - (restParticle : Particle ℝ).position) = none := by
  have h : (twinBird : LeadBird ℝ).position - (restParticle : Particle ℝ).position
      = Vec3.zero := by
    rw [twinBird_position, restParticle_position, Vec3.zero_eq]
    ext <;> simp [Vec3.sub_def]
  rw [h, Vec3.normalize_zero]

theorem tick_coincidentState (rand : Nat → Nat) :
    tick Real.sqrt rand (coincidentState : State ℝ) = none := by
  simp only [tick, coincidentState, updateLeadBirds_twinBird, Option.some_bind, updateParticles,
    updateParticlesLoop, updateParticle, findNearest_restParticle, normalize_twin_rest,
    Option.none_bind, Option.map_none']

end Exact

/-! ## Claims settled on concrete inputs and on the edge wrap -/

/-- C4: the edge wrap sends a coordinate `1 + δ` to exactly `-1` and a
coordinate `-1 - δ` to exactly `1` for every `δ > 0`, for `x` and for `y`,
leaves a coordinate of `[-1, 1]` unchanged, and never changes `z`. -/
theorem wrapEdges_spec (p : Vec3 ℝ) (δ : ℝ) (hδ : 0 < δ) :
    (p.x = 1 + δ → (wrapEdges p).x = -1) ∧ (p.x = -1 - δ → (wrapEdges p).x = 1) ∧
    (p.y = 1 + δ → (wrapEdges p).y = -1) ∧ (p.y = -1 - δ → (wrapEdges p).y = 1) ∧
    (-1 ≤ p.x → p.x ≤ 1 → (wrapEdges p).x = p.x) ∧
    (-1 ≤ p.y → p.y ≤ 1 → (wrapEdges p).y = p.y) ∧
    (wrapEdges p).z = p.z := by
  have e1 : (1.0 : ℝ) = 1 := by norm_num
  refine ⟨?_, ?_, ?_, ?_, ?_, ?_, rfl⟩
  · intro h
    have h1 : ¬ p.x < -1 := by linarith
    have h2 : p.x > 1 := by linarith
    simp [wrapEdges, e1, h1, h2]
  · intro h
    have h1 : p.x < -1 := by linarith
    simp [wrapEdges, e1, h1]
  · intro h
    have h1 : ¬ p.y < -1 := by linarith
    have h2 : p.y > 1 := by linarith
    simp [wrapEdges, e1, h1, h2]
  · intro h
    have h1 : p.y < -1 := by linarith
    simp [wrapEdges, e1, h1]
  · intro h1 h2
    simp [wrapEdges, e1, not_lt.mpr h1, not_lt.mpr h2]
  · intro h1 h2
    simp [wrapEdges, e1, not_lt.mpr h1, not_lt.mpr h2]

/-- C4, at a concrete position: `(3/2, -2, 7)` wraps to `(-1, 1, 7)`. -/
theorem wrapEdges_spec_witness :
    (0 : ℝ) < 1 / 2 ∧ (wrapEdges (⟨1 + 1 / 2, -1 - 1, 7⟩ : Vec3 ℝ)).x = -1 :=
  ⟨by norm_num, (wrapEdges_spec ⟨1 + 1 / 2, -1 - 1, 7⟩ (1 / 2) (by norm_num)).1 rfl⟩

/-- C8: with two leads at the same position and at rest, the first lead has one
separation neighbour and a zero separation average; the average is normalised
all the same, which has no value (NaN in the C++ program), so the update of
the flock has no value either. -/
theorem zero_average_is_normalised :
    (scanOthers Real.sqrt (advance (twinBird : LeadBird ℝ)) [twinBird]).separationCount = 1 ∧
    (scanOthers Real.sqrt (advance (twinBird : LeadBird ℝ)) [twinBird]).separation.divs 1
      = Vec3.zero ∧
    separationForce Real.sqrt (advance (twinBird : LeadBird ℝ))
      (scanOthers Real.sqrt (advance twinBird) [twinBird]) = none ∧
    updateLeadBirds Real.sqrt [(twinBird : LeadBird ℝ), twinBird] = none := by
  have hscan : scanOthers Real.sqrt (twinBird : LeadBird ℝ) [twinBird] =
      ⟨Vec3.zero, Vec3.zero, Vec3.zero, 1, 1, 1⟩ := by
    have hd : Vec3.distance Real.sqrt (twinBird : LeadBird ℝ).position
        (twinBird : LeadBird ℝ).position = 0 := by
      rw [twinBird_position, distance_axis]
      norm_num
    have hz : (Vec3.zero : Vec3 ℝ) + ((twinBird : LeadBird ℝ).position -
        (twinBird : LeadBird ℝ).position) = Vec3.zero := by
      rw [twinBird_position, Vec3.zero_eq]
      ext <;> simp [Vec3.add_def, Vec3.sub_def]
    have hz2 : (Vec3.zero : Vec3 ℝ) + (twinBird : LeadBird ℝ).velocity = Vec3.zero := by
      rw [show (twinBird : LeadBird ℝ).velocity = Vec3.zero from rfl, Vec3.zero_eq]
      ext <;> simp [Vec3.add_def]
    have hz3 : (Vec3.zero : Vec3 ℝ) + (twinBird : LeadBird ℝ).position = Vec3.zero := by
      rw [twinBird_position, Vec3.zero_eq]
      ext <;> simp [Vec3.add_def]
    have hs : (0 : ℝ) < SEPARATION_RADIUS := by norm_num [SEPARATION_RADIUS]
    have ha : (0 : ℝ) < ALIGNMENT_RADIUS := by norm_num [ALIGNMENT_RADIUS]
    have hc : (0 : ℝ) < COHESION_RADIUS := by norm_num [COHESION_RADIUS]
    simp only [scanOthers, List.foldl_cons, List.foldl_nil, scanStep, hd, hs, ha, hc, if_true,
      FlockAcc.init, hz, hz2, hz3]
  have hsep : separationForce Real.sqrt (twinBird : LeadBird ℝ)
      ⟨Vec3.zero, Vec3.zero, Vec3.zero, 1, 1, 1⟩ = none := by
    have hdiv : (Vec3.zero : Vec3 ℝ).divs ((1 : ℕ) : ℝ) = Vec3.zero := by
      rw [Vec3.zero_eq]
      ext <;> simp [Vec3.divs]
    simp only [separationForce, Nat.lt_one_iff, gt_iff_lt, Nat.zero_lt_one, if_true, hdiv,
      Vec3.normalize_zero, Option.none_bind]
  rw [advance_twinBird, hscan]
  refine ⟨rfl, ?_, hsep, ?_⟩
  · rw [Vec3.zero_eq]
    ext <;> simp [Vec3.divs]
  · simp only [updateLeadBirds, updateLeadBirdsLoop, updateBird, advance_twinBird,
      List.nil_append, hscan, hsep, Option.none_bind]

/-- Whenever one pass has a value in exact arithmetic, every lead and every
particle ends with `x` and `y` in `[-1, 1]`. -/
theorem position_containment_of_defined (rand : Nat → Nat) (s s' : State ℝ)
    (h : tick Real.sqrt rand s = some s') :
    (∀ b ∈ s'.leadBirds, -1 ≤ b.position.x ∧ b.position.x ≤ 1 ∧
      -1 ≤ b.position.y ∧ b.position.y ≤ 1) ∧
    (∀ p ∈ s'.particles, -1 ≤ p.position.x ∧ p.position.x ≤ 1 ∧
      -1 ≤ p.position.y ∧ p.position.y ≤ 1) := by
  obtain ⟨hlb, hps⟩ := tick_eq_some Real.sqrt rand s s' h
  constructor
  · refine updateLeadBirdsLoop_all Real.sqrt _ ?_ s.leadBirds [] s'.leadBirds hlb
      (fun b hb => by cases hb)
    intro others bird b hb
    simp only [updateBird, Option.bind_eq_some, Option.map_eq_some'] at hb
    obtain ⟨_, _, _, _, _, _, v, _, hb⟩ := hb
    subst hb
    exact wrapEdges_range _
  · refine updateParticlesLoop_all Real.sqrt s'.leadBirds rand _ s.particles ?_ 0 s'.particles hps
    intro p _ k q k1 hq
    unfold updateParticle at hq
    cases hn : (findNearest Real.sqrt p s'.leadBirds).1 with
    | none =>
      rw [hn] at hq
      cases hq
      exact wrapEdges_range _
    | some nb =>
      rw [hn] at hq
      simp only [Option.bind_eq_some, Option.map_eq_some'] at hq
      obtain ⟨_, _, v3, _, hq⟩ := hq
      cases hq
      exact wrapEdges_range _

/-- C2 fails on the code: with a particle at the position of its nearest lead
the direction `normalize(0)` has no value (NaN in the C++ program), so the
pass yields no position for the particle, whatever `rand()` returns. -/
theorem position_containment_fails_on_lead (rand : Nat → Nat) :
    (findNearest Real.sqrt (restParticle : Particle ℝ) [twinBird]).1 = some twinBird ∧
    Vec3.normalize Real.sqrt
      ((twinBird : LeadBird ℝ).position - (restParticle : Particle ℝ).position) = none ∧
    tick Real.sqrt rand (coincidentState : State ℝ) = none :=
  ⟨findNearest_restParticle, normalize_twin_rest, tick_coincidentState rand⟩

/-! ## Claims that hold in every arithmetic -/

section Claims
set_option linter.unusedSectionVars false
variable {K : Type} [Add K] [Sub K] [Mul K] [Div K] [Neg K] [LT K]
  [DecidableRel (LT.lt : K → K → Prop)] [DecidableEq K] [OfScientific K] [NatCast K]
  [IntCast K]

/-- C3, amended: in every arithmetic in which a number above `MAX_SPEED` is not
zero and the computed length of the zero vector is zero and not above
`MAX_SPEED`, `limitSpeed` returns `v` multiplied by `1 / length(v)` and then by
`MAX_SPEED` when the computed length of `v` is above `MAX_SPEED`, and `v`
itself otherwise; the zero vector is returned unchanged and is not normalised
(normalising it has no value). -/
theorem limitSpeed_spec (sqrt : K → K) (hpos : ∀ x : K, MAX_SPEED < x → ¬ x = 0.0)
    (hlen0 : sqrt ((0.0 : K) * 0.0 + 0.0 * 0.0 + 0.0 * 0.0) = 0.0)
    (hM : ¬ (MAX_SPEED : K) < 0.0) (v : Vec3 K) :
    (MAX_SPEED < Vec3.length sqrt v →
      limitSpeed sqrt v = some ((v.scale (1.0 / Vec3.length sqrt v)).scale MAX_SPEED)) ∧
    (¬ MAX_SPEED < Vec3.length sqrt v → limitSpeed sqrt v = some v) ∧
    limitSpeed sqrt (Vec3.zero : Vec3 K) = some Vec3.zero ∧
    Vec3.normalize sqrt (Vec3.zero : Vec3 K) = none := by
  have hl : Vec3.length sqrt (Vec3.zero : Vec3 K) = 0.0 := hlen0
  refine ⟨?_, ?_, ?_, ?_⟩
  · intro h
    rw [limitSpeed_of_pos sqrt hpos, if_pos h]
  · intro h
    rw [limitSpeed_of_pos sqrt hpos, if_neg h]
  · rw [limitSpeed_of_pos sqrt hpos, if_neg]
    rw [hl]
    exact hM
  · unfold Vec3.normalize
    exact if_pos hl

/-- C6, amended: in every arithmetic whose `<` is irreflexive and transitive,
the scan of `updateParticles` either selects no lead, exactly when no lead has a
computed distance below `FLT_MAX`, and then the particle only gets its position
wrapped; or it selects a lead of the flock than which no lead is strictly
closer, and then the velocity handed to `limitSpeed` is the old velocity plus
`0.001` times `normalize(lead position - particle position)` plus the noise. -/
theorem nearest_lead (sqrt : K → K) (hirrefl : ∀ a : K, ¬ a < a)
    (htrans : ∀ a b c : K, a < b → b < c → a < c)
    (leadBirds : List (LeadBird K)) (rand : Nat → Nat) (k : Nat) (p : Particle K) :
    ((findNearest sqrt p leadBirds).1 = none ∧
      (∀ b ∈ leadBirds, ¬ Vec3.distance sqrt p.position b.position < FLT_MAX) ∧
      updateParticle sqrt leadBirds rand k p =
        some ({ p with position := wrapEdges p.position }, k)) ∨
    ∃ nb ∈ leadBirds, (findNearest sqrt p leadBirds).1 = some nb ∧
      Vec3.distance sqrt p.position nb.position < FLT_MAX ∧
      (∀ o ∈ leadBirds, ¬ Vec3.distance sqrt p.position o.position <
        Vec3.distance sqrt p.position nb.position) ∧
      updateParticle sqrt leadBirds rand k p =
        (Vec3.normalize sqrt (nb.position - p.position)).bind (fun direction =>
          (limitSpeed sqrt
            (p.velocity + direction.scale 0.001 +
              ⟨noise (rand k), noise (rand (k + 1)), 0.0⟩)).map
            (fun v3 =>
              ({ p with velocity := v3, position := wrapEdges (p.position + v3) }, k + 2))) := by
  rcases foldl_nearestStep sqrt hirrefl htrans p leadBirds (none, FLT_MAX) with
    ⟨heq, hall⟩ | ⟨nb, hnb, heq, hlt, hmin⟩
  · left
    have hnone : (findNearest sqrt p leadBirds).1 = none := by
      unfold findNearest
      rw [heq]
    refine ⟨hnone, hall, ?_⟩
    simp only [updateParticle, hnone]
  · right
    have hsome : (findNearest sqrt p leadBirds).1 = some nb := by
      unfold findNearest
      rw [heq]
    refine ⟨nb, hnb, hsome, hlt, hmin, ?_⟩
    simp only [updateParticle, hsome]

/-- C7, amended: in every arithmetic, a lead of a flock whose velocity is not
changed by adding the three zero contributions `0 * 1.5 + 0 * 1 + 0 * 1`, and
for which, when it is visited, no radius test of the scan fires (the distances
taken from its advanced position to the earlier leads as the pass has
rewritten them and to the later leads as they were), is rewritten to position
`wrap(position + velocity)` and velocity `limitSpeed(velocity)`; the only lead
of a one-lead flock always is. -/
theorem zero_neighbour_stability (sqrt : K → K)
    (pre rest : List (LeadBird K)) (bird : LeadBird K) (r : List (LeadBird K))
    (hzero : bird.velocity +
      ((Vec3.zero : Vec3 K).scale 1.5 + (Vec3.zero : Vec3 K).scale 1.0 +
        (Vec3.zero : Vec3 K).scale 1.0) = bird.velocity)
    (hr : updateLeadBirds sqrt (pre ++ bird :: rest) = some r)
    (hclear : ∀ o ∈ r.take pre.length ++ rest,
      clear sqrt (advance bird).position o.position) :
    (∃ v, limitSpeed sqrt bird.velocity = some v ∧
      r[pre.length]? = some ⟨wrapEdges (bird.position + bird.velocity), v, bird.path⟩) ∧
    updateLeadBirds sqrt [bird] =
      (limitSpeed sqrt bird.velocity).map
        (fun v => [⟨wrapEdges (bird.position + bird.velocity), v, bird.path⟩]) := by
  constructor
  · have hsplit := updateLeadBirdsLoop_split sqrt pre (bird :: rest) [] r hr
    simp only [List.length_nil, Nat.zero_add] at hsplit
    have hlen : (r.take pre.length).length = pre.length := by
      obtain ⟨_, h2⟩ := updateLeadBirdsLoop_take sqrt _ _ _ hr
      simp only [List.length_nil, Nat.zero_add, List.length_append, List.length_cons] at h2
      rw [List.length_take]
      omega
    unfold updateLeadBirdsLoop at hsplit
    rw [updateBird_clear sqrt bird _ hzero hclear] at hsplit
    cases hv : limitSpeed sqrt bird.velocity with
    | none =>
      rw [hv] at hsplit
      cases hsplit
    | some v =>
      rw [hv] at hsplit
      simp only [Option.map_some'] at hsplit
      refine ⟨v, rfl, ?_⟩
      obtain ⟨h1, _⟩ := updateLeadBirdsLoop_take sqrt _ _ _ hsplit
      have h2 := congrArg (fun l => l[pre.length]?) h1
      simp only [List.length_append, List.length_cons, List.length_nil, hlen] at h2
      rw [List.getElem?_take_of_lt (by omega)] at h2
      rw [h2, List.getElem?_append_right (by omega), hlen]
      simp
  · have hb := updateBird_clear sqrt bird [] hzero (fun o ho => by cases ho)
    simp only [updateLeadBirds, updateLeadBirdsLoop, List.nil_append, hb]
    cases limitSpeed sqrt bird.velocity <;> rfl

/-- C9, amended: in every arithmetic in which a number above `MAX_SPEED` is not
zero, for a flock whose leads have velocities that are not changed by adding
the three zero contributions `0 * 1.5 + 0 * 1 + 0 * 1` and pairwise do not meet
during the pass (no radius test of the scan fires between the advanced position
of one and the old or advanced position of the other), `updateLeadBirds`
rewrites every lead by itself, so running it on a permutation of the flock
yields the same permutation of the result. -/
theorem order_independence_apart (sqrt : K → K)
    (hpos : ∀ x : K, MAX_SPEED < x → ¬ x = 0.0)
    (flock flock' : List (LeadBird K))
    (hzero : ∀ b ∈ flock, b.velocity +
      ((Vec3.zero : Vec3 K).scale 1.5 + (Vec3.zero : Vec3 K).scale 1.0 +
        (Vec3.zero : Vec3 K).scale 1.0) = b.velocity)
    (hperm : flock.Perm flock') (hp : flock.Pairwise (apart sqrt)) :
    updateLeadBirds sqrt flock = some (flock.map (freeFlight sqrt)) ∧
    updateLeadBirds sqrt flock' = some (flock'.map (freeFlight sqrt)) ∧
    (flock.map (freeFlight sqrt)).Perm (flock'.map (freeFlight sqrt)) := by
  have hp' : flock'.Pairwise (apart sqrt) :=
    (hperm.pairwise_iff (fun {a b} h => apart_symm sqrt a b h)).mp hp
  have h1 := updateLeadBirdsLoop_apart sqrt hpos flock [] hzero hp (fun d hd => by cases hd)
  have h2 := updateLeadBirdsLoop_apart sqrt hpos flock' [] (fun b hb => hzero b (hperm.mem_iff.mpr hb))
    hp' (fun d hd => by cases hd)
  simp only [List.map_nil, List.nil_append] at h1 h2
  exact ⟨h1, h2, hperm.map _⟩

/-- C10, amended: in every arithmetic, for a lead (`bird`, as the scan sees it,
its position already advanced) with at least one other lead passing the
cohesion test, the cohesion vector is obtained by averaging those others'
positions, subtracting the lead's own position from that average (average
minus own position), normalising the difference, multiplying by `MAX_SPEED`,
subtracting the lead's velocity and speed-limiting the result. -/
theorem cohesion_steering (sqrt : K → K) (bird : LeadBird K) (others : List (LeadBird K))
    (hN : cohesionNeighbours sqrt bird others ≠ []) :
    cohesionForce sqrt bird (scanOthers sqrt bird others) =
      (Vec3.normalize sqrt
        (averagePosition (cohesionNeighbours sqrt bird others) - bird.position)).bind
        (fun u => limitSpeed sqrt (u.scale MAX_SPEED - bird.velocity)) := by
  obtain ⟨h1, h2⟩ := scanOthers_cohesion sqrt bird others
  have hlen : 0 < (cohesionNeighbours sqrt bird others).length := List.length_pos.mpr hN
  unfold cohesionForce
  rw [h1, h2, if_pos hlen]
  rfl

end Claims

/-! ## Examples in exact arithmetic -/

section ExactExamples

theorem clear_of_le (p q : Vec3 ℝ) (h : 3 / 10 ≤ Vec3.distance Real.sqrt p q) :
    clear Real.sqrt p q := by
  unfold clear
  refine ⟨?_, ?_, ?_⟩
  · norm_num [SEPARATION_RADIUS]
    linarith
  · norm_num [ALIGNMENT_RADIUS]
    linarith
  · norm_num [COHESION_RADIUS]
    linarith

theorem freeFlight_twinBird : freeFlight Real.sqrt (twinBird : LeadBird ℝ) = twinBird := by
  unfold freeFlight
  rw [advance_twinBird, show (twinBird : LeadBird ℝ).velocity = Vec3.zero from rfl,
    limitSpeed_zero]
  rfl

end ExactExamples

/-! ## Particles in exact arithmetic -/

section ExactParticles

set_option exponentiation.threshold 4096
set_option maxRecDepth 1000000

theorem farParticle_eq :
    (farParticle : Particle ℝ) = ⟨⟨FLT_MAX, 0, 0⟩, ⟨1, 0, 0⟩, 5, ⟨1, 1, 1⟩⟩ := by
  unfold farParticle
  norm_num

theorem wrapEdges_far : wrapEdges (⟨FLT_MAX, 0, 0⟩ : Vec3 ℝ) = ⟨-1, 0, 0⟩ := by
  have h := FLT_MAX_pos
  have h1 : ¬ (FLT_MAX : ℝ) < -1 := by linarith
  ext <;> norm_num [wrapEdges, h1, h]

/-- C6, as stated, fails: in the one-lead flock with the lead at the origin, the
scan selects no lead for the particle at `x = FLT_MAX`, and the particle's
velocity gets no attraction at all; in exact arithmetic, and in binary32
(where the distance is infinite). -/
theorem nearest_lead_fails_far_particle :
    ([(twinBird : LeadBird ℝ)] ≠ [] ∧
    (findNearest Real.sqrt (farParticle : Particle ℝ) [twinBird]).1 = none ∧
    updateParticle Real.sqrt [twinBird] (fun _ => 0) 0 (farParticle : Particle ℝ) =
      some (⟨⟨-1, 0, 0⟩, farParticle.velocity, 5, ⟨1, 1, 1⟩⟩, 0)) ∧
    ([(twinBird : LeadBird F32)] ≠ [] ∧
    (findNearest F32.sqrt (farParticle : Particle F32) [twinBird]).1 = none ∧
    updateParticle F32.sqrt [twinBird] (fun _ => 0) 0 (farParticle : Particle F32) =
      some (⟨⟨-1.0, 0.0, 0.0⟩, farParticle.velocity, 5.0, ⟨1.0, 1.0, 1.0⟩⟩, 0)) := by
  refine ⟨?_, by decide⟩
  refine ⟨by simp, findNearest_farParticle, ?_⟩
  simp only [updateParticle, findNearest_farParticle]
  rw [farParticle_eq]
  simp only [wrapEdges_far]

end ExactParticles

/-! ## Two leads within the cohesion radius, in exact arithmetic -/

section ExactLeads

set_option exponentiation.threshold 4096
set_option maxRecDepth 1000000

theorem quarterLead_position : (quarterLead : LeadBird ℝ).position = ⟨1 / 4, 0, 0⟩ := by
  ext <;> norm_num [quarterLead]

theorem cohesionNeighbours_quarterLead :
    cohesionNeighbours Real.sqrt (twinBird : LeadBird ℝ) [quarterLead] = [quarterLead] := by
  have hd : Vec3.distance Real.sqrt (twinBird : LeadBird ℝ).position
      (quarterLead : LeadBird ℝ).position = 1 / 4 := by
    rw [twinBird_position, quarterLead_position, distance_axis]
    norm_num [abs_of_pos]
  unfold cohesionNeighbours
  rw [List.filter_cons_of_pos]
  · rfl
  · rw [hd]
    norm_num [COHESION_RADIUS]

theorem averagePosition_quarterLead :
    averagePosition [(quarterLead : LeadBird ℝ)] = ⟨1 / 4, 0, 0⟩ := by
  ext <;> norm_num [averagePosition, positionSum, quarterLead, Vec3.divs, Vec3.zero,
    Vec3.add_def]

theorem twinBird_velocity : (twinBird : LeadBird ℝ).velocity = ⟨0, 0, 0⟩ := Vec3.zero_eq

/-- C10, as stated, fails: for a lead at rest at the origin with one other lead
at `(0.25, 0, 0)` the code yields the cohesion vector `(0.01, 0, 0)`, toward the
neighbour, while own position minus average yields `(-0.01, 0, 0)`; in exact
arithmetic, and in binary32. -/
theorem cohesion_direction_differs :
    (cohesionNeighbours Real.sqrt (twinBird : LeadBird ℝ) [quarterLead] ≠ [] ∧
    cohesionForce Real.sqrt (twinBird : LeadBird ℝ) (scanOthers Real.sqrt twinBird [quarterLead])
      = some ⟨1 / 100, 0, 0⟩ ∧
    cohesionClaimed Real.sqrt (twinBird : LeadBird ℝ) [quarterLead] = some ⟨-(1 / 100), 0, 0⟩ ∧
    cohesionForce Real.sqrt (twinBird : LeadBird ℝ) (scanOthers Real.sqrt twinBird [quarterLead])
      ≠ cohesionClaimed Real.sqrt twinBird [quarterLead]) ∧
    (cohesionNeighbours F32.sqrt (twinBird : LeadBird F32) [quarterLead] ≠ [] ∧
    cohesionForce F32.sqrt (twinBird : LeadBird F32) (scanOthers F32.sqrt twinBird [quarterLead])
      = some ⟨0.01, 0.0, 0.0⟩ ∧
    cohesionClaimed F32.sqrt (twinBird : LeadBird F32) [quarterLead] = some ⟨-0.01, 0.0, 0.0⟩ ∧
    cohesionForce F32.sqrt (twinBird : LeadBird F32) (scanOthers F32.sqrt twinBird [quarterLead])
      ≠ cohesionClaimed F32.sqrt twinBird [quarterLead]) := by
  refine ⟨?_, by decide⟩
  obtain ⟨h1, h2⟩ := scanOthers_cohesion Real.sqrt (twinBird : LeadBird ℝ) [quarterLead]
  rw [cohesionNeighbours_quarterLead] at h1 h2
  have hcode : cohesionForce Real.sqrt (twinBird : LeadBird ℝ)
      (scanOthers Real.sqrt twinBird [quarterLead]) = some ⟨1 / 100, 0, 0⟩ := by
    have hv : (positionSum [(quarterLead : LeadBird ℝ)]).divs
        (([(quarterLead : LeadBird ℝ)].length : ℕ) : ℝ) - (twinBird : LeadBird ℝ).position
          = ⟨1 / 4, 0, 0⟩ := by
      have := averagePosition_quarterLead
      unfold averagePosition at this
      rw [this, twinBird_position]
      ext <;> simp [Vec3.sub_def]
    have hs : (⟨1, 0, 0⟩ : Vec3 ℝ).scale MAX_SPEED - (twinBird : LeadBird ℝ).velocity
        = ⟨1 / 100, 0, 0⟩ := by
      rw [twinBird_velocity]
      ext <;> norm_num [Vec3.sub_def, Vec3.scale, MAX_SPEED]
    unfold cohesionForce
    rw [h1, h2, if_pos (by decide), hv, normalize_axis_pos _ (by norm_num), Option.some_bind, hs,
      limitSpeed_axis _ (by norm_num [abs_of_pos])]
  have hclaim : cohesionClaimed Real.sqrt (twinBird : LeadBird ℝ) [quarterLead]
      = some ⟨-(1 / 100), 0, 0⟩ := by
    have hv : (twinBird : LeadBird ℝ).position - averagePosition [(quarterLead : LeadBird ℝ)]
        = ⟨-(1 / 4), 0, 0⟩ := by
      rw [averagePosition_quarterLead, twinBird_position]
      ext <;> simp [Vec3.sub_def]
    have hs : (⟨-1, 0, 0⟩ : Vec3 ℝ).scale MAX_SPEED - (twinBird : LeadBird ℝ).velocity
        = ⟨-(1 / 100), 0, 0⟩ := by
      rw [twinBird_velocity]
      ext <;> norm_num [Vec3.sub_def, Vec3.scale, MAX_SPEED]
    unfold cohesionClaimed
    rw [cohesionNeighbours_quarterLead, hv, normalize_axis_neg _ (by norm_num), Option.some_bind,
      hs, limitSpeed_axis _ (by norm_num [abs_of_pos])]
  refine ⟨?_, hcode, hclaim, ?_⟩
  · rw [cohesionNeighbours_quarterLead]
    simp
  · rw [hcode, hclaim]
    intro h
    have hx := congrArg Vec3.x (Option.some.inj h)
    norm_num at hx

theorem updateBird_cohesion_only (bird o : LeadBird ℝ) (u c v : Vec3 ℝ)
    (h1 : ¬ Vec3.distance Real.sqrt (advance bird).position o.position < SEPARATION_RADIUS)
    (h2 : ¬ Vec3.distance Real.sqrt (advance bird).position o.position < ALIGNMENT_RADIUS)
    (h3 : Vec3.distance Real.sqrt (advance bird).position o.position < COHESION_RADIUS)
    (hu : Vec3.normalize Real.sqrt (o.position - (advance bird).position) = some u)
    (hc : limitSpeed Real.sqrt (u.scale MAX_SPEED - bird.velocity) = some c)
    (hv : limitSpeed Real.sqrt (bird.velocity + c) = some v) :
    updateBird Real.sqrt [o] bird = some ⟨(advance bird).position, v, bird.path⟩ := by
  have hscan : scanOthers Real.sqrt (advance bird) [o] =
      ⟨Vec3.zero, Vec3.zero, Vec3.zero + o.position, 0, 0, 0 + 1⟩ := by
    simp only [scanOthers, List.foldl_cons, List.foldl_nil, scanStep, h1, h2, h3, if_true,
      if_false, FlockAcc.init]
  have hdiff : (Vec3.zero + o.position).divs (((0 + 1 : ℕ)) : ℝ) - (advance bird).position =
      o.position - (advance bird).position := by
    rw [Vec3.zero_eq]
    ext <;> simp [Vec3.add_def, Vec3.sub_def, Vec3.divs]
  have hsum : bird.velocity +
      ((Vec3.zero : Vec3 ℝ).scale 1.5 + (Vec3.zero : Vec3 ℝ).scale 1.0 + c.scale 1.0) =
      bird.velocity + c := by
    rw [Vec3.zero_eq]
    ext <;> norm_num [Vec3.add_def, Vec3.scale]
  have hvel : (advance bird).velocity = bird.velocity := rfl
  simp only [updateBird, hscan, separationForce, alignmentForce, cohesionForce, lt_irrefl,
    gt_iff_lt, if_false, Option.some_bind, Nat.lt_add_one, if_true, hdiff, hu, hvel, hc, hsum,
    hv, Option.map_some']
  rfl

theorem incomingLead_eq :
    (incomingLead : LeadBird ℝ) = ⟨⟨61 / 200, 0, 0⟩, ⟨-(1 / 100), 0, 0⟩, []⟩ := by
  unfold incomingLead
  norm_num

theorem incomingLeadAfter_eq :
    (incomingLeadAfter : LeadBird ℝ) = ⟨⟨59 / 200, 0, 0⟩, ⟨-(1 / 100), 0, 0⟩, []⟩ := by
  unfold incomingLeadAfter
  norm_num

theorem pulledLead_eq : (pulledLead : LeadBird ℝ) = ⟨⟨0, 0, 0⟩, ⟨1 / 100, 0, 0⟩, []⟩ := by
  unfold pulledLead
  norm_num [Vec3.zero]

theorem twinBird_eq : (twinBird : LeadBird ℝ) = ⟨⟨0, 0, 0⟩, ⟨0, 0, 0⟩, []⟩ := by
  unfold twinBird
  norm_num [Vec3.zero]

theorem advance_incomingLead :
    (advance (incomingLead : LeadBird ℝ)).position = ⟨59 / 200, 0, 0⟩ := by
  rw [incomingLead_eq]
  ext <;> norm_num [advance, wrapEdges, Vec3.add_def]

theorem updateBird_incomingLead :
    updateBird Real.sqrt [(twinBird : LeadBird ℝ)] incomingLead = some incomingLeadAfter := by
  have hd : Vec3.distance Real.sqrt (advance (incomingLead : LeadBird ℝ)).position
      (twinBird : LeadBird ℝ).position = 59 / 200 := by
    rw [advance_incomingLead, twinBird_position, distance_axis]
    norm_num [abs_of_neg]
  have hu : Vec3.normalize Real.sqrt
      ((twinBird : LeadBird ℝ).position - (advance (incomingLead : LeadBird ℝ)).position)
        = some ⟨-1, 0, 0⟩ := by
    rw [advance_incomingLead, twinBird_position]
    have h : (⟨0, 0, 0⟩ : Vec3 ℝ) - (⟨59 / 200, 0, 0⟩ : Vec3 ℝ) = ⟨-(59 / 200), 0, 0⟩ := by
      ext <;> simp [Vec3.sub_def]
    rw [h, normalize_axis_neg _ (by norm_num)]
  have hvel : (incomingLead : LeadBird ℝ).velocity = ⟨-(1 / 100), 0, 0⟩ := by
    rw [incomingLead_eq]
  have hc : limitSpeed Real.sqrt ((⟨-1, 0, 0⟩ : Vec3 ℝ).scale MAX_SPEED -
      (incomingLead : LeadBird ℝ).velocity) = some ⟨0, 0, 0⟩ := by
    have h : (⟨-1, 0, 0⟩ : Vec3 ℝ).scale MAX_SPEED - (incomingLead : LeadBird ℝ).velocity
        = ⟨0, 0, 0⟩ := by
      rw [hvel]
      ext <;> norm_num [Vec3.sub_def, Vec3.scale, MAX_SPEED]
    rw [h, limitSpeed_axis _ (by norm_num)]
  have hv : limitSpeed Real.sqrt ((incomingLead : LeadBird ℝ).velocity + ⟨0, 0, 0⟩)
      = some ⟨-(1 / 100), 0, 0⟩ := by
    have h : (incomingLead : LeadBird ℝ).velocity + (⟨0, 0, 0⟩ : Vec3 ℝ)
        = ⟨-(1 / 100), 0, 0⟩ := by
      rw [hvel]
      ext <;> norm_num [Vec3.add_def]
    rw [h, limitSpeed_axis _ (by norm_num [abs_of_pos])]
  have := updateBird_cohesion_only incomingLead twinBird _ _ _
    (by rw [hd]; norm_num [SEPARATION_RADIUS]) (by rw [hd]; norm_num [ALIGNMENT_RADIUS])
    (by rw [hd]; norm_num [COHESION_RADIUS]) hu hc hv
  rw [this, advance_incomingLead, incomingLeadAfter_eq]
  rfl

theorem updateBird_twinBird_near :
    updateBird Real.sqrt [(incomingLeadAfter : LeadBird ℝ)] twinBird = some pulledLead := by
  have hpos : (incomingLeadAfter : LeadBird ℝ).position = ⟨59 / 200, 0, 0⟩ := by
    rw [incomingLeadAfter_eq]
  have hd : Vec3.distance Real.sqrt (advance (twinBird : LeadBird ℝ)).position
      (incomingLeadAfter : LeadBird ℝ).position = 59 / 200 := by
    rw [advance_twinBird, twinBird_position, hpos, distance_axis]
    norm_num [abs_of_pos]
  have hu : Vec3.normalize Real.sqrt
      ((incomingLeadAfter : LeadBird ℝ).position - (advance (twinBird : LeadBird ℝ)).position)
        = some ⟨1, 0, 0⟩ := by
    rw [advance_twinBird, twinBird_position, hpos]
    have h : (⟨59 / 200, 0, 0⟩ : Vec3 ℝ) - (⟨0, 0, 0⟩ : Vec3 ℝ) = ⟨59 / 200, 0, 0⟩ := by
      ext <;> simp [Vec3.sub_def]
    rw [h, normalize_axis_pos _ (by norm_num)]
  have hc : limitSpeed Real.sqrt ((⟨1, 0, 0⟩ : Vec3 ℝ).scale MAX_SPEED -
      (twinBird : LeadBird ℝ).velocity) = some ⟨1 / 100, 0, 0⟩ := by
    have h : (⟨1, 0, 0⟩ : Vec3 ℝ).scale MAX_SPEED - (twinBird : LeadBird ℝ).velocity
        = ⟨1 / 100, 0, 0⟩ := by
      rw [twinBird_velocity]
      ext <;> norm_num [Vec3.sub_def, Vec3.scale, MAX_SPEED]
    rw [h, limitSpeed_axis _ (by norm_num [abs_of_pos])]
  have hv : limitSpeed Real.sqrt ((twinBird : LeadBird ℝ).velocity + ⟨1 / 100, 0, 0⟩)
      = some ⟨1 / 100, 0, 0⟩ := by
    have h : (twinBird : LeadBird ℝ).velocity + (⟨1 / 100, 0, 0⟩ : Vec3 ℝ)
        = ⟨1 / 100, 0, 0⟩ := by
      rw [twinBird_velocity]
      ext <;> norm_num [Vec3.add_def]
    rw [h, limitSpeed_axis _ (by norm_num [abs_of_pos])]
  have := updateBird_cohesion_only twinBird incomingLeadAfter _ _ _
    (by rw [hd]; norm_num [SEPARATION_RADIUS]) (by rw [hd]; norm_num [ALIGNMENT_RADIUS])
    (by rw [hd]; norm_num [COHESION_RADIUS]) hu hc hv
  rw [this, advance_twinBird, twinBird_position, pulledLead_eq]
  rfl

theorem distance_twin_incoming :
    Vec3.distance Real.sqrt (twinBird : LeadBird ℝ).position
      (incomingLead : LeadBird ℝ).position = 61 / 200 := by
  rw [twinBird_position, incomingLead_eq, distance_axis]
  norm_num [abs_of_pos]

theorem updateBird_twinBird_far :
    updateBird Real.sqrt [(incomingLead : LeadBird ℝ)] twinBird = some twinBird := by
  rw [updateBird_freeFlight Real.sqrt real_pos_of_fast twinBird [incomingLead]
    (real_add_zero_vec _), freeFlight_twinBird]
  intro o ho
  rw [List.mem_singleton.mp ho, advance_twinBird]
  exact clear_of_le _ _ (by rw [distance_twin_incoming]; norm_num)

theorem updateLeadBirds_incoming_twin :
    updateLeadBirds Real.sqrt [(incomingLead : LeadBird ℝ), twinBird] =
      some [incomingLeadAfter, pulledLead] := by
  simp only [updateLeadBirds, updateLeadBirdsLoop, List.nil_append, List.append_nil,
    updateBird_incomingLead, List.singleton_append, updateBird_twinBird_near]

/-- C7, as stated, fails: in the flock of a lead at `(0.305, 0, 0)` flying
toward the origin and a lead at rest at the origin, the lead at the origin has
no other lead within any radius, neither of its old nor of its advanced
position, yet it ends with velocity `(0.01, 0, 0)` and not `limitSpeed(0) = 0`:
the other lead is visited first and has moved to `0.295` by the time the scan
reads it; in exact arithmetic, and in binary32. -/
theorem zero_neighbour_fails_when_approached :
    (clear Real.sqrt (twinBird : LeadBird ℝ).position (incomingLead : LeadBird ℝ).position ∧
    clear Real.sqrt (advance (twinBird : LeadBird ℝ)).position
      (incomingLead : LeadBird ℝ).position ∧
    limitSpeed Real.sqrt (twinBird : LeadBird ℝ).velocity = some Vec3.zero ∧
    updateLeadBirds Real.sqrt [(incomingLead : LeadBird ℝ), twinBird] =
      some [incomingLeadAfter, pulledLead] ∧
    (pulledLead : LeadBird ℝ).velocity ≠ Vec3.zero) ∧
    (clear F32.sqrt (twinBird : LeadBird F32).position (incomingLead : LeadBird F32).position ∧
    clear F32.sqrt (advance (twinBird : LeadBird F32)).position
      (incomingLead : LeadBird F32).position ∧
    limitSpeed F32.sqrt (twinBird : LeadBird F32).velocity = some Vec3.zero ∧
    updateLeadBirds F32.sqrt [(incomingLead : LeadBird F32), twinBird] =
      some [advance incomingLead, pulledLead] ∧
    (pulledLead : LeadBird F32).velocity ≠ Vec3.zero) := by
  refine ⟨?_, by decide⟩
  have hc : clear Real.sqrt (twinBird : LeadBird ℝ).position
      (incomingLead : LeadBird ℝ).position :=
    clear_of_le _ _ (by rw [distance_twin_incoming]; norm_num)
  refine ⟨hc, ?_, limitSpeed_zero, updateLeadBirds_incoming_twin, ?_⟩
  · rw [advance_twinBird]
    exact hc
  · rw [pulledLead_eq, Vec3.zero_eq]
    intro h
    have hx := congrArg Vec3.x h
    norm_num at hx

/-- C9, as stated, fails: with a lead at rest at the origin and a lead at
`(0.305, 0, 0)` flying toward it, the lead at the origin keeps velocity zero
when it is visited first (the other lead is still outside the cohesion radius)
and gets velocity `(0.01, 0, 0)` when it is visited second; in exact
arithmetic, and in binary32. -/
theorem order_dependence :
    ([(twinBird : LeadBird ℝ), incomingLead].Perm [incomingLead, twinBird] ∧
    updateLeadBirds Real.sqrt [(twinBird : LeadBird ℝ), incomingLead] =
      some [twinBird, incomingLeadAfter] ∧
    updateLeadBirds Real.sqrt [(incomingLead : LeadBird ℝ), twinBird] =
      some [incomingLeadAfter, pulledLead] ∧
    ¬ [(twinBird : LeadBird ℝ), incomingLeadAfter].Perm [incomingLeadAfter, pulledLead]) ∧
    ([(twinBird : LeadBird F32), incomingLead].Perm [incomingLead, twinBird] ∧
    updateLeadBirds F32.sqrt [(twinBird : LeadBird F32), incomingLead] =
      some [twinBird, advance incomingLead] ∧
    updateLeadBirds F32.sqrt [(incomingLead : LeadBird F32), twinBird] =
      some [advance incomingLead, pulledLead] ∧
    ¬ [(twinBird : LeadBird F32), advance incomingLead].Perm
      [advance incomingLead, pulledLead]) := by
  refine ⟨?_, List.Perm.swap incomingLead twinBird [], by decide, by decide, by decide⟩
  refine ⟨List.Perm.swap incomingLead twinBird [], ?_, updateLeadBirds_incoming_twin, ?_⟩
  · simp only [updateLeadBirds, updateLeadBirdsLoop, List.nil_append, List.append_nil,
      updateBird_twinBird_far, List.singleton_append, updateBird_incomingLead]
  · intro h
    have hmem : (pulledLead : LeadBird ℝ) ∈ [(twinBird : LeadBird ℝ), incomingLeadAfter] :=
      h.symm.subset (List.mem_cons_of_mem _ (List.mem_singleton.mpr rfl))
    rw [pulledLead_eq, twinBird_eq, incomingLeadAfter_eq] at hmem
    rcases List.mem_cons.mp hmem with h1 | h2
    · have hx := congrArg (fun b => b.velocity.x) h1
      norm_num at hx
    · have hx := congrArg (fun b => b.velocity.x) (List.mem_singleton.mp h2)
      norm_num at hx

end ExactLeads


/-! ## Binary32: exact operations

Facts about the binary32 arithmetic `F32`: an operation whose exact result
has at most 24 significant bits returns that result. -/

namespace F32

set_option exponentiation.threshold 4096
set_option maxRecDepth 1000000

theorem bitLengthLoop_le (fuel : Nat) :
    ∀ (n b : Nat), n < 2 ^ b → bitLengthLoop fuel n ≤ b := by
  induction fuel with
  | zero => intro n b _; simp [bitLengthLoop]
  | succ fuel ih =>
    intro n b h
    rw [bitLengthLoop]
    split_ifs with h0
    · exact Nat.zero_le _
    · cases b with
      | zero =>
        simp at h
        exact absurd h h0
      | succ b =>
        have h2 : n / 2 < 2 ^ b := by
          rw [Nat.div_lt_iff_lt_mul (by norm_num)]
          rw [pow_succ] at h
          exact h
        exact Nat.succ_le_succ (ih _ _ h2)

theorem roundUnits_exact (N k q : Nat) (hN : N < 2 ^ 24) (hq : 0 < q) :
    roundUnits (N * 2 ^ k * q) q = N * 2 ^ k := by
  have hf : N * 2 ^ k * q / q = N * 2 ^ k := Nat.mul_div_cancel _ hq
  have hb : bitLength (N * 2 ^ k) ≤ 24 + k := by
    apply bitLengthLoop_le
    rw [pow_add]
    exact Nat.mul_lt_mul_of_pos_right hN (Nat.pow_pos (by norm_num))
  obtain ⟨s, hs⟩ : ∃ s, s = bitLength (N * 2 ^ k) - 24 := ⟨_, rfl⟩
  have hsk : s ≤ k := by omega
  obtain ⟨j, rfl⟩ : ∃ j, k = s + j := ⟨k - s, by omega⟩
  have hd : 0 < q * 2 ^ s := Nat.mul_pos hq (Nat.pow_pos (by norm_num))
  have hp : N * 2 ^ (s + j) * q = N * 2 ^ j * (q * 2 ^ s) := by
    rw [pow_add]; ring
  have hm : N * 2 ^ (s + j) * q / (q * 2 ^ s) = N * 2 ^ j := by
    rw [hp]; exact Nat.mul_div_cancel _ hd
  have hr : N * 2 ^ (s + j) * q % (q * 2 ^ s) = 0 := by
    rw [hp]; exact Nat.mul_mod_left _ _
  simp only [roundUnits, hf, ← hs, hm, hr]
  rw [if_pos (by simpa using hd), pow_add]
  ring

theorem ofUnits_exact (negative : Bool) (N k q : Nat) (hN : N < 2 ^ 24) (hk : k ≤ 253)
    (hq : 0 < q) :
    ofUnits negative (N * 2 ^ k * q) q =
      fin (if negative then -((N * 2 ^ k : Nat) : Int) else ((N * 2 ^ k : Nat) : Int)) := by
  have hlt : ¬ 2 ^ 277 ≤ N * 2 ^ k := by
    have h1 : N * 2 ^ k < 2 ^ 24 * 2 ^ k :=
      Nat.mul_lt_mul_of_pos_right hN (Nat.pow_pos (by norm_num))
    have h2 : 2 ^ 24 * 2 ^ k ≤ 2 ^ 24 * 2 ^ 253 :=
      Nat.mul_le_mul_left _ (Nat.pow_le_pow_right (by norm_num) hk)
    have h3 : (2 : Nat) ^ 24 * 2 ^ 253 = 2 ^ 277 := by rw [← pow_add]
    omega
  simp only [ofUnits, roundUnits_exact N k q hN hq, if_neg hlt]


theorem literal_zero : (0.0 : F32) = fin 0 := by decide

theorem literal_32768 : (32768.0 : F32) = fin (2 ^ 164) := by decide

theorem natAbs_signed (b : Bool) (m : Nat) :
    (if b = true then -(m : Int) else (m : Int)).natAbs = m := by
  cases b
  · exact Int.natAbs_ofNat _
  · show (-(m : Int)).natAbs = _
    rw [Int.natAbs_neg]
    exact Int.natAbs_ofNat _

theorem add_fin_exact (A B : Nat) (hS : A + B ≤ 2 ^ 24) :
    (fin ((A * 2 ^ 134 : Nat) : Int) + fin ((B * 2 ^ 134 : Nat) : Int) : F32) =
      fin (((A + B) * 2 ^ 134 : Nat) : Int) := by
  show add (fin _) (fin _) = _
  have hsum : ((A * 2 ^ 134 : Nat) : Int) + ((B * 2 ^ 134 : Nat) : Int) =
      (((A + B) * 2 ^ 134 : Nat) : Int) := by
    push_cast; ring
  have hneg : ¬ (((A + B) * 2 ^ 134 : Nat) : Int) < 0 := not_lt.mpr (Int.natCast_nonneg _)
  simp only [add, hsum, Int.natAbs_ofNat, decide_eq_false hneg]
  rcases Nat.lt_or_ge (A + B) (2 ^ 24) with h | h
  · have := ofUnits_exact false (A + B) 134 1 h (by norm_num) (by norm_num)
    simpa using this
  · have hE : A + B = 2 ^ 24 := le_antisymm hS h
    have := ofUnits_exact false 1 158 1 (by norm_num) (by norm_num) (by norm_num)
    rw [hE]
    simpa using this

theorem sample_term (sample : Int) (hs : isALshort sample) :
    abs ((sample : F32) / 32768.0) = fin ((sample.natAbs * 2 ^ 134 : Nat) : Int) := by
  rw [literal_32768]
  show abs (div (ofUnits (decide (sample < 0)) (sample.natAbs * 2 ^ 149) 1) (fin (2 ^ 164))) = _
  have hn : sample.natAbs < 2 ^ 24 := by
    have := hs.1
    have := hs.2
    omega
  have h1 := ofUnits_exact (decide (sample < 0)) sample.natAbs 149 1 hn (by norm_num)
    (by norm_num)
  rw [Nat.mul_one] at h1
  rw [h1]
  have hb : ¬ ((2 : Int) ^ 164 = 0) := by norm_num
  have hnat : ((2 : Int) ^ 164).natAbs = 2 ^ 164 := by
    rw [Int.natAbs_pow]; rfl
  have hpos : ¬ ((2 : Int) ^ 164 < 0) := by norm_num
  simp only [div, if_neg hb, hnat, natAbs_signed, decide_eq_false hpos]
  have h2 : sample.natAbs * 2 ^ 149 * 2 ^ 149 = sample.natAbs * 2 ^ 134 * 2 ^ 164 := by
    rw [Nat.mul_assoc, Nat.mul_assoc, ← pow_add, ← pow_add]
  rw [h2, ofUnits_exact _ sample.natAbs 134 (2 ^ 164) hn (by norm_num) (by norm_num)]
  simp only [abs, natAbs_signed]

theorem sum_natAbs_le (samples : List Int) (hs : ∀ s ∈ samples, isALshort s) :
    (samples.map Int.natAbs).sum ≤ samples.length * 32768 := by
  induction samples with
  | nil => simp
  | cons s rest ih =>
    have h1 := hs s (List.mem_cons_self s rest)
    have h2 := ih (fun t ht => hs t (List.mem_cons_of_mem s ht))
    have h3 : s.natAbs ≤ 32768 := by
      have := h1.1
      have := h1.2
      omega
    simp only [List.map_cons, List.sum_cons, List.length_cons]
    omega

theorem foldl_exact (samples : List Int) (hs : ∀ s ∈ samples, isALshort s) :
    ∀ A : Nat, A + (samples.map Int.natAbs).sum ≤ 2 ^ 24 →
      samples.foldl (fun (sum : F32) (sample : Int) => sum + abs ((sample : F32) / 32768.0))
          (fin ((A * 2 ^ 134 : Nat) : Int)) =
        fin (((A + (samples.map Int.natAbs).sum) * 2 ^ 134 : Nat) : Int) := by
  induction samples with
  | nil => intro A _; simp
  | cons s rest ih =>
    intro A hA
    simp only [List.map_cons, List.sum_cons] at hA
    simp only [List.foldl_cons, List.map_cons, List.sum_cons]
    rw [sample_term s (hs s (List.mem_cons_self s rest)), add_fin_exact A s.natAbs (by omega),
      ih (fun t ht => hs t (List.mem_cons_of_mem s ht)) (A + s.natAbs) (by omega)]
    rw [Nat.add_assoc]

end F32

/-! ## Binary32: the laws used above, and the claims evaluated -/

section Binary32

set_option exponentiation.threshold 4096
set_option maxRecDepth 1000000

theorem F32.lt_irrefl (a : F32) : ¬ a < a := by
  cases a with
  | nan => exact fun h => h
  | inf s =>
    intro h
    have h1 : s = true := h.1
    have h2 : s = false := h.2
    rw [h1] at h2
    cases h2
  | fin n => exact Int.lt_irrefl n

theorem F32.lt_trans (a b c : F32) (h1 : a < b) (h2 : b < c) : a < c := by
  cases a <;> cases b <;> cases c <;>
    first
    | exact h1
    | exact h2
    | exact absurd h1 (fun h => h)
    | exact absurd h2 (fun h => h)
    | exact h1.1
    | exact h2.2
    | exact ⟨h1.1, h2.2⟩
    | exact Int.lt_trans h1 h2
    | exact ⟨h1, h2⟩
    | skip
  case fin.inf.fin a s b =>
    have e1 : s = false := h1
    have e2 : s = true := h2
    rw [e1] at e2
    cases e2

theorem F32.constants :
    (MAX_SPEED : F32) = F32.fin (10737418 * 2 ^ 119) ∧
    (SEPARATION_RADIUS : F32) = F32.fin (13421773 * 2 ^ 122) ∧
    (ALIGNMENT_RADIUS : F32) = F32.fin (13421773 * 2 ^ 123) ∧
    (COHESION_RADIUS : F32) = F32.fin (5033165 * 2 ^ 125) ∧
    (FLT_MAX : F32) = F32.fin ((2 ^ 24 - 1) * 2 ^ 253) ∧
    ((RAND_MAX : Nat) : F32) = F32.fin (2 ^ 180) := by
  decide

theorem F32.pos_of_fast (x : F32) (h : MAX_SPEED < x) : ¬ x = 0.0 := by
  intro hx
  rw [hx] at h
  exact absurd h (by decide)

theorem F32.length_zero : F32.sqrt ((0.0 : F32) * 0.0 + 0.0 * 0.0 + 0.0 * 0.0) = 0.0 := by
  decide

theorem F32.max_speed_nonneg : ¬ (MAX_SPEED : F32) < 0.0 := by decide

end Binary32

/-! ## The claims in binary32 -/

section Binary32Claims

set_option exponentiation.threshold 4096
set_option maxRecDepth 1000000

/-- C3, as stated, fails in binary32: the vector `(2^70, 0, 0)` has a computed
length above `MAX_SPEED` (the square overflows, the length is infinite), and
`limitSpeed` returns the zero vector, which has length `0`, not `MAX_SPEED`,
and is no positive multiple of the vector; and the vector `(-2, -3, -6)` is
handed back with a computed length above `MAX_SPEED`. -/
theorem limitSpeed_overflows :
    (MAX_SPEED : F32) < Vec3.length F32.sqrt (hugeVector : Vec3 F32) ∧
    limitSpeed F32.sqrt (hugeVector : Vec3 F32) = some Vec3.zero ∧
    Vec3.length F32.sqrt (Vec3.zero : Vec3 F32) = 0.0 ∧
    ¬ Vec3.length F32.sqrt (Vec3.zero : Vec3 F32) = MAX_SPEED ∧
    (MAX_SPEED : F32) < Vec3.length F32.sqrt (steepVector : Vec3 F32) ∧
    ∃ w, limitSpeed F32.sqrt (steepVector : Vec3 F32) = some w ∧
      MAX_SPEED < Vec3.length F32.sqrt w := by
  refine ⟨by decide, by decide, by decide, by decide, by decide, ?_⟩
  have h : (limitSpeed F32.sqrt (steepVector : Vec3 F32)).isSome = true := by decide
  obtain ⟨w, hw⟩ := Option.isSome_iff_exists.mp h
  refine ⟨w, hw, ?_⟩
  have h2 : (limitSpeed F32.sqrt (steepVector : Vec3 F32)).all
      (fun w => decide (MAX_SPEED < Vec3.length F32.sqrt w)) = true := by decide
  rw [hw] at h2
  exact of_decide_eq_true h2

/-- C3, amended, in binary32, at the vector `(3, 4, 0)`: its computed length is
above `MAX_SPEED`, and it is handed back multiplied by `1 / length` and by
`MAX_SPEED`. -/
theorem limitSpeed_spec_witness :
    (∀ x : F32, MAX_SPEED < x → ¬ x = 0.0) ∧
    F32.sqrt ((0.0 : F32) * 0.0 + 0.0 * 0.0 + 0.0 * 0.0) = 0.0 ∧
    ¬ (MAX_SPEED : F32) < 0.0 ∧
    MAX_SPEED < Vec3.length F32.sqrt (plainVector : Vec3 F32) ∧
    limitSpeed F32.sqrt (plainVector : Vec3 F32) =
      some (((plainVector : Vec3 F32).scale
        (1.0 / Vec3.length F32.sqrt (plainVector : Vec3 F32))).scale MAX_SPEED) :=
  ⟨F32.pos_of_fast, F32.length_zero, F32.max_speed_nonneg, by decide,
    (limitSpeed_spec F32.sqrt F32.pos_of_fast F32.length_zero F32.max_speed_nonneg
      plainVector).1 (by decide)⟩

/-- C6, amended, in binary32, at the example of the specification: with leads
at `(0,0,0)` and `(1,1,0)` and a particle at `(0.1,0.1,0)` the scan selects the
lead at the origin. -/
theorem nearest_lead_witness :
    (∀ a : F32, ¬ a < a) ∧ (∀ a b c : F32, a < b → b < c → a < c) ∧
    (findNearest F32.sqrt (exampleParticle : Particle F32) [twinBird, cornerLead]).1
      = some twinBird ∧
    (((findNearest F32.sqrt (exampleParticle : Particle F32) [twinBird, cornerLead]).1 = none ∧
      (∀ b ∈ [(twinBird : LeadBird F32), cornerLead],
        ¬ Vec3.distance F32.sqrt (exampleParticle : Particle F32).position b.position
          < FLT_MAX) ∧
      updateParticle F32.sqrt [twinBird, cornerLead] (fun _ => 0) 0
          (exampleParticle : Particle F32) =
        some ({ (exampleParticle : Particle F32) with
          position := wrapEdges (exampleParticle : Particle F32).position }, 0)) ∨
    ∃ nb ∈ [(twinBird : LeadBird F32), cornerLead],
      (findNearest F32.sqrt (exampleParticle : Particle F32) [twinBird, cornerLead]).1
        = some nb ∧
      Vec3.distance F32.sqrt (exampleParticle : Particle F32).position nb.position < FLT_MAX ∧
      (∀ o ∈ [(twinBird : LeadBird F32), cornerLead],
        ¬ Vec3.distance F32.sqrt (exampleParticle : Particle F32).position o.position <
          Vec3.distance F32.sqrt (exampleParticle : Particle F32).position nb.position) ∧
      updateParticle F32.sqrt [twinBird, cornerLead] (fun _ => 0) 0
          (exampleParticle : Particle F32) =
        (Vec3.normalize F32.sqrt
          (nb.position - (exampleParticle : Particle F32).position)).bind (fun direction =>
          (limitSpeed F32.sqrt
            ((exampleParticle : Particle F32).velocity + direction.scale 0.001 +
              ⟨noise ((fun _ => 0) 0), noise ((fun _ => 0) (0 + 1)), 0.0⟩)).map
            (fun v3 =>
              ({ (exampleParticle : Particle F32) with
                  velocity := v3,
                  position := wrapEdges ((exampleParticle : Particle F32).position + v3) },
                0 + 2)))) :=
  ⟨F32.lt_irrefl, F32.lt_trans, by decide,
    nearest_lead F32.sqrt F32.lt_irrefl F32.lt_trans [twinBird, cornerLead] (fun _ => 0) 0
      exampleParticle⟩

/-- C7, amended, in binary32, at the flock of a lead at the origin and a lead
at `(0.5, 0, 0)`, both at rest: the second lead, visited after the first has
been rewritten, is left as it is. -/
theorem zero_neighbour_stability_witness :
    updateLeadBirds F32.sqrt ([(twinBird : LeadBird F32)] ++ farLead :: []) =
      some [twinBird, farLead] ∧
    (farLead : LeadBird F32).velocity +
      ((Vec3.zero : Vec3 F32).scale 1.5 + (Vec3.zero : Vec3 F32).scale 1.0 +
        (Vec3.zero : Vec3 F32).scale 1.0) = (farLead : LeadBird F32).velocity ∧
    (∀ o ∈ ([(twinBird : LeadBird F32), farLead]).take [(twinBird : LeadBird F32)].length ++ [],
      clear F32.sqrt (advance (farLead : LeadBird F32)).position o.position) ∧
    ∃ v, limitSpeed F32.sqrt (farLead : LeadBird F32).velocity = some v ∧
      [(twinBird : LeadBird F32), farLead][[(twinBird : LeadBird F32)].length]? =
        some ⟨wrapEdges ((farLead : LeadBird F32).position + (farLead : LeadBird F32).velocity),
          v, (farLead : LeadBird F32).path⟩ :=
  ⟨by decide, by decide, by decide,
    (zero_neighbour_stability F32.sqrt [twinBird] [] farLead [twinBird, farLead] (by decide)
      (by decide) (by decide)).1⟩

/-- C9, amended, in binary32, at the flock of a lead at the origin and a lead
at `(0.5, 0, 0)`, both at rest, and the flock in the other order. -/
theorem order_independence_apart_witness :
    [(twinBird : LeadBird F32), farLead].Perm [farLead, twinBird] ∧
    [(twinBird : LeadBird F32), farLead].Pairwise (apart F32.sqrt) ∧
    updateLeadBirds F32.sqrt [(twinBird : LeadBird F32), farLead] =
      some ([(twinBird : LeadBird F32), farLead].map (freeFlight F32.sqrt)) ∧
    updateLeadBirds F32.sqrt [(farLead : LeadBird F32), twinBird] =
      some ([(farLead : LeadBird F32), twinBird].map (freeFlight F32.sqrt)) ∧
    ([(twinBird : LeadBird F32), farLead].map (freeFlight F32.sqrt)).Perm
      ([(farLead : LeadBird F32), twinBird].map (freeFlight F32.sqrt)) :=
  ⟨List.Perm.swap farLead twinBird [], by decide,
    order_independence_apart F32.sqrt F32.pos_of_fast [twinBird, farLead] [farLead, twinBird]
      (by decide) (List.Perm.swap farLead twinBird []) (by decide)⟩

/-- C10, amended, in binary32, at a lead at rest at the origin with one other
lead at `(0.25, 0, 0)`. -/
theorem cohesion_steering_witness :
    cohesionNeighbours F32.sqrt (twinBird : LeadBird F32) [quarterLead] ≠ [] ∧
    cohesionForce F32.sqrt (twinBird : LeadBird F32)
        (scanOthers F32.sqrt twinBird [quarterLead]) =
      (Vec3.normalize F32.sqrt
        (averagePosition (cohesionNeighbours F32.sqrt (twinBird : LeadBird F32) [quarterLead]) -
          (twinBird : LeadBird F32).position)).bind
        (fun u =>
          limitSpeed F32.sqrt (u.scale MAX_SPEED - (twinBird : LeadBird F32).velocity)) :=
  ⟨by decide, cohesion_steering F32.sqrt twinBird [quarterLead] (by decide)⟩

end Binary32Claims

/-! ## The amplitude adapter in binary32 -/

section Amplitude

set_option exponentiation.threshold 4096
set_option maxRecDepth 1000000

theorem foldl_replicate_fixed {α β : Type} (f : α → β → α) (acc : α) (x : β)
    (h : f acc x = acc) : ∀ n : Nat, (List.replicate n x).foldl f acc = acc := by
  intro n
  induction n with
  | zero => rfl
  | succ n ih => rw [List.replicate_succ, List.foldl_cons, h, ih]

/-- C5, as stated, fails in binary32: in the buffer of 512 samples of value
`-32768` followed by 512 samples of value `1`, the running sum is `512` after
the first half and every `1 / 32768` added to it after that is rounded away;
the value returned is `0.5`, while the mean of `|sample| / 32768` is
`0.5000152587890625`, a binary32 number itself (`32769 * 2^133` units of
`2^(-149)`). -/
theorem getAudioAmplitude_rounds_sum :
    (∀ sample ∈ fadingBuffer, isALshort sample) ∧
    getAudioAmplitude F32.abs fadingBuffer = (0.5 : F32) ∧
    F32.fin (((fadingBuffer.map Int.natAbs).sum * 2 ^ 134 : Nat) : Int) /
      ((fadingBuffer.length : Nat) : F32) = F32.fin (32769 * 2 ^ 133) ∧
    ¬ (0.5 : F32) = F32.fin (32769 * 2 ^ 133) := by
  have hmem : ∀ sample ∈ fadingBuffer, isALshort sample := by
    intro sample h
    rcases List.mem_append.mp h with h1 | h1
    · rw [List.eq_of_mem_replicate h1]
      decide
    · rw [List.eq_of_mem_replicate h1]
      decide
  have hlen : fadingBuffer.length = 1024 := by
    simp [fadingBuffer]
  have hsum : (fadingBuffer.map Int.natAbs).sum = 16777728 := by
    simp [fadingBuffer, List.sum_replicate]
  have hloud : ∀ sample ∈ List.replicate 512 (-32768 : Int), isALshort sample := by
    intro sample h
    rw [List.eq_of_mem_replicate h]
    decide
  have hloudsum : ((List.replicate 512 (-32768 : Int)).map Int.natAbs).sum = 16777216 := by
    simp [List.sum_replicate]
  have hfirst := F32.foldl_exact _ hloud 0 (by rw [hloudsum]; norm_num)
  rw [hloudsum] at hfirst
  have hstep : (F32.fin (((0 + 16777216) * 2 ^ 134 : Nat) : Int) +
      F32.abs (((1 : Int) : F32) / 32768.0) : F32) =
        F32.fin (((0 + 16777216) * 2 ^ 134 : Nat) : Int) := by
    decide
  refine ⟨hmem, ?_, ?_, by decide⟩
  · unfold getAudioAmplitude
    rw [if_pos (by rw [hlen]; norm_num), hlen]
    unfold fadingBuffer
    rw [List.foldl_append, F32.literal_zero,
      show (F32.fin 0) = F32.fin ((0 * 2 ^ 134 : Nat) : Int) from rfl, hfirst,
      foldl_replicate_fixed
        (fun (sum : F32) (sample : Int) => sum + F32.abs ((sample : F32) / 32768.0))
        _ 1 hstep]
    decide
  · rw [hlen, hsum]
    decide

/-- C5, amended, in binary32: for every buffer of at most 512 signed 16-bit
samples the running sum is exact, so `getAudioAmplitude` returns the sum of
`|sample| / 32768` (the number of `sum |sample| * 2^134` units of `2^(-149)`)
divided by the count, rounded once; it returns `0.0` for the empty buffer; and
for the buffer `[-32768, -32768, 0, 0]` the amplitude is `0.5`. -/
theorem getAudioAmplitude_spec (samples : List Int) (hs : ∀ sample ∈ samples, isALshort sample)
    (hlen : samples.length ≤ 512) :
    getAudioAmplitude F32.abs ([] : List Int) = (0.0 : F32) ∧
    (samples ≠ [] →
      getAudioAmplitude F32.abs samples =
        F32.fin (((samples.map Int.natAbs).sum * 2 ^ 134 : Nat) : Int) /
          ((samples.length : Nat) : F32)) ∧
    getAudioAmplitude F32.abs [-32768, -32768, 0, 0] = (0.5 : F32) := by
  refine ⟨rfl, ?_, by decide⟩
  intro hne
  have hpos : samples.length > 0 := List.length_pos.mpr hne
  have hsum := F32.sum_natAbs_le samples hs
  have hfold := F32.foldl_exact samples hs 0 (by norm_num; omega)
  simp only [Nat.zero_mul, Nat.zero_add, Nat.cast_zero] at hfold
  unfold getAudioAmplitude
  rw [if_pos hpos, F32.literal_zero]
  rw [show (F32.fin 0) = F32.fin ((0 : Nat) : Int) from rfl] at *
  rw [hfold]

/-- C5, amended, at the buffer `[-32768, -32768, 0, 0]`: the sum is
`65536 * 2^134` units, which is `2`, and the amplitude is `2 / 4`. -/
theorem getAudioAmplitude_spec_witness :
    (∀ sample ∈ ([-32768, -32768, 0, 0] : List Int), isALshort sample) ∧
    ([-32768, -32768, 0, 0] : List Int).length ≤ 512 ∧
    getAudioAmplitude F32.abs ([-32768, -32768, 0, 0] : List Int) =
      F32.fin (((([-32768, -32768, 0, 0] : List Int).map Int.natAbs).sum * 2 ^ 134 : Nat) : Int) /
        ((([-32768, -32768, 0, 0] : List Int).length : Nat) : F32) :=
  ⟨by decide, by decide,
    (getAudioAmplitude_spec [-32768, -32768, 0, 0] (by decide) (by decide)).2.1 (by decide)⟩

end Amplitude

end Murmer
